import Mathlib

/-!
Verification development for the ScratchNet feedforward neural network
trainer.  The data model and operations are translated from
src/src/network.cpp and src/include/ml_models/DNN/neuron.hpp.  The
scalar type of the C++ code (double) is modelled by an arbitrary
commutative ring R: the program performs only additions, subtractions
and multiplications, so every statement proved below holds in
particular for the rational or real instantiation, while a concrete
instantiation such as the integers lets terms evaluate.  The squashing
function and its derivative are kept abstract as a parameter record,
since the Neuron implementation file is not part of the sources; per
the spec Design Note the activation squashes the raw input value (the
stored bias is not added).
-/

/-- Neuron state, from neuron.hpp: an input value, an activation value,
the derivative of the activation, and a bias defaulting to 0
(member initializer m_bias brace-0 in the header). -/
structure Neuron (R : Type) where
  input : R
  activation : R
  derivative : R
  bias : R
deriving DecidableEq

instance {R : Type} [CommRing R] : Inhabited (Neuron R) := ⟨⟨0, 0, 0, 0⟩⟩

/-- The fixed squashing function and its derivative, kept abstract.
Modelled from the spec: the Neuron implementation is absent from src;
section 4.1 speaks of one fixed squashing function computed from the raw
input field. -/
structure SquashFn (R : Type) where
  sq : R → R
  dsq : R → R

/-- Replace the element at an index by applying a function, leaving the
list unchanged when the index is out of range.  Used to model writes to
a std vector element. -/
def listModify {α : Type} (f : α → α) : ℕ → List α → List α
  | _, [] => []
  | 0, x :: xs => f x :: xs
  | n + 1, x :: xs => x :: listModify f n xs

theorem length_listModify {α : Type} (f : α → α) :
    ∀ (n : ℕ) (l : List α), (listModify f n l).length = l.length := by
  intro n l
  induction l generalizing n with
  | nil => cases n <;> rfl
  | cons x xs ih => cases n with
    | zero => rfl
    | succ m => simpa [listModify] using ih m

theorem getD_listModify_self {α : Type} (f : α → α) (d : α) :
    ∀ (n : ℕ) (l : List α), n < l.length →
      (listModify f n l).getD n d = f (l.getD n d) := by
  intro n l
  induction l generalizing n with
  | nil => intro h; simp at h
  | cons x xs ih =>
    intro h
    cases n with
    | zero => rfl
    | succ m =>
      have hm : m < xs.length := by simpa using h
      simpa [listModify] using ih m hm

theorem getD_listModify_ne {α : Type} (f : α → α) (d : α) :
    ∀ (n j : ℕ) (l : List α), j ≠ n →
      (listModify f n l).getD j d = l.getD j d := by
  intro n j l
  induction l generalizing n j with
  | nil => intro _; cases n <;> rfl
  | cons x xs ih =>
    intro hj
    cases n with
    | zero =>
      cases j with
      | zero => exact absurd rfl hj
      | succ j' => rfl
    | succ m =>
      cases j with
      | zero => rfl
      | succ j' =>
        have : j' ≠ m := fun h => hj (by simp [h])
        simpa [listModify] using ih m j' this

/-- A layer is an ordered, fixed-size collection of neurons.  Modelled
from the spec: the Layer implementation file is absent from src;
section 4.2 gives its contract. -/
structure Layer (R : Type) where
  neurons : List (Neuron R)
deriving DecidableEq

instance {R : Type} [CommRing R] : Inhabited (Layer R) := ⟨⟨[]⟩⟩

def Layer.getSize {R : Type} (L : Layer R) : ℕ := L.neurons.length

def Layer.getInputs {R : Type} (L : Layer R) : List R := L.neurons.map Neuron.input

def Layer.getActivations {R : Type} (L : Layer R) : List R :=
  L.neurons.map Neuron.activation

def Layer.getDerivatives {R : Type} (L : Layer R) : List R :=
  L.neurons.map Neuron.derivative

def Layer.getBiasAt {R : Type} [CommRing R] (L : Layer R) (i : ℕ) : R :=
  (L.neurons.getD i default).bias

/-- Set one neuron bias.  Out-of-range writes are never performed by the
embedded callers (constructor and update stay within the layer size);
they are modelled as a no-op. -/
def Layer.setBiasAt {R : Type} (L : Layer R) (i : ℕ) (b : R) : Layer R :=
  ⟨listModify (fun nr => { nr with bias := b }) i L.neurons⟩

/-- Set one neuron input.  Per spec sections 4.2, 4.5 and the Design
Note, setting an input eagerly recomputes the activation and derivative
from the raw input (the bias is not added), and an out-of-range index
fails with an out-of-range error (the C++ vector at-accessor throw). -/
def Layer.setInputAt {R : Type} (S : SquashFn R) (L : Layer R) (i : ℕ) (x : R) :
    Except String (Layer R) :=
  if i < L.neurons.length then
    .ok ⟨listModify
      (fun nr => { nr with input := x, activation := S.sq x, derivative := S.dsq x })
      i L.neurons⟩
  else .error "out_of_range"

/-- A fresh layer of a given size.  Modelled from the spec: neurons start
with input 0, the corresponding activation and derivative, and the
default bias 0 from the neuron header. -/
def Layer.ofSize {R : Type} [CommRing R] (S : SquashFn R) (n : ℕ) : Layer R :=
  ⟨List.replicate n ⟨0, S.sq 0, S.dsq 0, 0⟩⟩

namespace linalg

/-- Dense matrix collaborator (spec section 6): row count, column count
and entries stored by rows. -/
structure Matrix (R : Type) where
  numRows : ℕ
  numCols : ℕ
  entries : List (List R)
deriving DecidableEq

instance {R : Type} [CommRing R] : Inhabited (Matrix R) := ⟨⟨0, 0, []⟩⟩

def Matrix.get {R : Type} [CommRing R] (m : Matrix R) (j i : ℕ) : R :=
  (m.entries.getD j []).getD i 0

def Matrix.setEntry {R : Type} (m : Matrix R) (j i : ℕ) (v : R) : Matrix R :=
  { m with entries := listModify (listModify (fun _ => v) i) j m.entries }

/-- Random-filled r by c matrix.  Modelled from the spec (section 6):
the collaborator draws one random real per entry from the supply; the
draw order inside the matrix is internal to the collaborator and is
modelled row major. -/
def Matrix.mkRandom {R : Type} (r c : ℕ) (sup : ℕ → R) (start : ℕ) : Matrix R :=
  ⟨r, c, (List.range r).map (fun j => (List.range c).map (fun i => sup (start + j * c + i)))⟩

/-- Transpose, per the collaborator contract: an r by c matrix becomes a
c by r matrix with entries mirrored. -/
def Matrix.transpose {R : Type} [CommRing R] (m : Matrix R) : Matrix R :=
  ⟨m.numCols, m.numRows,
    (List.range m.numCols).map (fun i => (List.range m.numRows).map (fun j => m.get j i))⟩

/-- Matrix-vector product, per the collaborator contract for a vector of
length equal to the column count (spec section 6); every row is dotted
with the vector. -/
def matVec {R : Type} [CommRing R] (m : Matrix R) (v : List R) : List R :=
  m.entries.map (fun row => (List.zipWith (fun a b => a * b) row v).sum)

/-- Elementwise (Hadamard) product of two equal-length vectors, per the
collaborator contract (spec section 6). -/
def hadamardProduct {R : Type} [CommRing R] (a b : List R) : List R :=
  List.zipWith (fun x y => x * y) a b

end linalg

/-- The network state, from the network header as used by network.cpp:
the stored layer sizes, the layer count, the layers, the weight
matrices, the last set input, the current target output, and the error
list built by backpropagation. -/
structure Network (R : Type) where
  layerSizes : List ℕ
  numLayers : ℕ
  layers : List (Layer R)
  weightMatrices : List (linalg.Matrix R)
  input : List R
  targetOutput : List R
  errors : List (List R)
deriving DecidableEq

instance {R : Type} [CommRing R] : Inhabited (Network R) := ⟨⟨[], 0, [], [], [], [], []⟩⟩

/-- Size of layer l of a network. -/
def Network.sizeAt {R : Type} [CommRing R] (net : Network R) (l : ℕ) : ℕ :=
  (net.layers.getD l default).getSize

/-- One iteration of the constructor loop for the adjacent pair
(l, l+1) (network.cpp lines 17 to 33): push a random weight matrix of
shape size(l+1) by size(l), then randomly initialize every bias of
layer l+1.  The state threads the network together with the next unused
index of the random supply. -/
def constructStep {R : Type} [CommRing R] (sup : ℕ → R) (sizes : List ℕ)
    (st : Network R × ℕ) (l : ℕ) : Network R × ℕ :=
  let net := st.1
  let idx := st.2
  let r := sizes.getD (l+1) 0
  let c := sizes.getD l 0
  let M := linalg.Matrix.mkRandom r c sup idx
  let idx2 := idx + r * c
  let sz := (net.layers.getD (l+1) default).getSize
  let L2 := (List.range sz).foldl
      (fun L j => Layer.setBiasAt L j (sup (idx2 + j))) (net.layers.getD (l+1) default)
  ({ net with
      weightMatrices := net.weightMatrices ++ [M],
      layers := listModify (fun _ => L2) (l+1) net.layers }, idx2 + sz)

/-- The Network constructor (network.cpp lines 5 to 34): store the sizes
and the layer count, build one layer per size, then for each adjacent
pair push a random weight matrix and randomize the biases of the next
layer.  The random-double collaborator is modelled as a supply indexed
by draw order. -/
def Network.construct {R : Type} [CommRing R] (S : SquashFn R) (sup : ℕ → R)
    (sizes : List ℕ) : Network R :=
  let init : Network R :=
    { layerSizes := sizes
      numLayers := sizes.length
      layers := sizes.map (Layer.ofSize S)
      weightMatrices := []
      input := []
      targetOutput := []
      errors := [] }
  ((List.range (sizes.length - 1)).foldl (constructStep sup sizes) (init, 0)).1

/-- Loop setting the inputs of a layer to the entries of a vector, one
neuron index at a time starting from a given index, propagating the
first out-of-range failure (the element loops of setInput and
feedForward, network.cpp lines 44 to 47 and 61 to 64). -/
def setInputsFrom {R : Type} (S : SquashFn R) :
    Layer R → ℕ → List R → Except String (Layer R)
  | L, _, [] => .ok L
  | L, i, v :: vs =>
    match Layer.setInputAt S L i v with
    | .ok L2 => setInputsFrom S L2 (i+1) vs
    | .error e => .error e

/-- Network setInput (network.cpp lines 36 to 48): store the input
vector, then set each input-layer neuron input in order.  An input
longer than layer 0 hits the out-of-range failure of setInputAt part
way through; a shorter input silently sets only a prefix of layer 0. -/
def Network.setInput {R : Type} [CommRing R] (S : SquashFn R) (net : Network R)
    (inp : List R) : Except String (Network R) :=
  let net1 := { net with input := inp }
  match setInputsFrom S (net1.layers.getD 0 default) 0 inp with
  | .ok L2 => .ok { net1 with layers := listModify (fun _ => L2) 0 net1.layers }
  | .error e => .error e

/-- Network setTarget.  Modelled from the spec: the network header is
absent from src; sections 2 and 3 record that the network stores the
current target-output vector. -/
def Network.setTarget {R : Type} (net : Network R) (t : List R) : Network R :=
  { net with targetOutput := t }

/-- One feedforward transition (network.cpp lines 56 to 66): multiply
the activation vector of layer l by weight matrix l and set the result,
element by element, as the inputs of layer l+1.  No bias is added to the
products. -/
def ffStep {R : Type} [CommRing R] (S : SquashFn R) (n : Network R) (l : ℕ) :
    Except String (Network R) :=
  if l < n.weightMatrices.length then
    let acts := (n.layers.getD l default).getActivations
    let nextInputs := linalg.matVec (n.weightMatrices.getD l default) acts
    match setInputsFrom S (n.layers.getD (l+1) default) 0 nextInputs with
    | .ok L2 => .ok { n with layers := listModify (fun _ => L2) (l+1) n.layers }
    | .error e => .error e
  else .error "out_of_range"

/-- Network feedForward (network.cpp lines 50 to 67): run the
feedforward transition for every layer but the last, in order. -/
def Network.feedForward {R : Type} [CommRing R] (S : SquashFn R) (net : Network R) :
    Except String (Network R) :=
  (List.range (net.layers.length - 1)).foldlM (ffStep S) net

/-- The backward recurrence loop of backPropagate (network.cpp lines 96
to 108), with the loop counter running from numLayers minus 2 down to
1: each iteration appends the error of layer i, the matrix-vector
product of the transpose of weight matrix i with the most recently
appended error, Hadamard the derivatives of layer i. -/
def bpLoop {R : Type} [CommRing R] (net : Network R) :
    ℕ → List (List R) → Except String (List (List R))
  | 0, errs => .ok errs
  | i + 1, errs =>
    if i + 1 < net.weightMatrices.length then
      if i + 1 < net.layers.length then
        let wT := (net.weightMatrices.getD (i+1) default).transpose
        let ds := (net.layers.getD (i+1) default).getDerivatives
        let bp := linalg.matVec wT (errs.getLastD [])
        bpLoop net i (errs ++ [linalg.hadamardProduct bp ds])
      else .error "out_of_range"
    else .error "out_of_range"

/-- Network backPropagate (network.cpp lines 69 to 109): push the output
error, the Hadamard product of the cost gradient (activation minus
target, entry by entry over the output layer) with the output
derivatives, then run the backward recurrence.  The target accesses
throw out of range when the target vector is shorter than the output
layer; console printing has no state effect and is omitted. -/
def Network.backPropagate {R : Type} [CommRing R] (net : Network R) :
    Except String (Network R) :=
  let lastLayer := net.layers.getLastD default
  let output := lastLayer.getActivations
  let outputDerivatives := lastLayer.getDerivatives
  if lastLayer.getSize ≤ net.targetOutput.length then
    let gradCost := (List.range lastLayer.getSize).map
      (fun i => output.getD i 0 - net.targetOutput.getD i 0)
    match bpLoop net (net.numLayers - 2)
        (net.errors ++ [linalg.hadamardProduct gradCost outputDerivatives]) with
    | .ok errs2 => .ok { net with errors := errs2 }
    | .error e => .error e
  else .error "out_of_range"

/-- The inner weight loop of update for a fixed destination neuron j
(network.cpp lines 126 to 134): replace entry (j, i) of the weight
matrix by the delta rule value for each source neuron i. -/
def updateWeightsRow {R : Type} [CommRing R] (lr : R) (acts err : List R) (j sCur : ℕ)
    (W : linalg.Matrix R) : linalg.Matrix R :=
  (List.range sCur).foldl
    (fun W i => W.setEntry j i (W.get j i - lr * acts.getD i 0 * err.getD j 0)) W

/-- One iteration of the outer update loop (network.cpp lines 118 to
142) for weight matrix l: for every destination neuron j of layer l+1,
apply the delta rule to row j of the matrix and then shift the bias of
neuron j by the learning rate times its error.  The error vector of
layer l+1 sits at reverse index (error count minus 1 minus l). -/
def updateLayer {R : Type} [CommRing R] (lr : R) (net : Network R) (l : ℕ) :
    Network R :=
  let acts := (net.layers.getD l default).getActivations
  let err := net.errors.getD (net.errors.length - 1 - l) []
  let sNext := (net.layers.getD (l+1) default).getSize
  let sCur := (net.layers.getD l default).getSize
  let res := (List.range sNext).foldl
    (fun (st : linalg.Matrix R × Layer R) j =>
      (updateWeightsRow lr acts err j sCur st.1,
       Layer.setBiasAt st.2 j (Layer.getBiasAt st.2 j - lr * err.getD j 0)))
    (net.weightMatrices.getD l default, net.layers.getD (l+1) default)
  { net with
      weightMatrices := listModify (fun _ => res.1) l net.weightMatrices,
      layers := listModify (fun _ => res.2) (l+1) net.layers }

/-- Network update (network.cpp lines 111 to 143): for every weight
matrix index l, apply the delta rule to matrix l and to the biases of
layer l+1, locating the error of layer l+1 through the reverse-indexed
error list. -/
def Network.update {R : Type} [CommRing R] (lr : R) (net : Network R) : Network R :=
  (List.range net.weightMatrices.length).foldl (updateLayer lr) net

/-- Network train (network.cpp lines 145 to 181): for each sample in
order, set the input, set the target, feed forward, clear the error
list of the previous pass, backpropagate and update; console printing
has no state effect and is omitted.  A sample missing its input or
target component fails as a malformed sample (the C++ vector at
accessor throws). -/
def Network.train {R : Type} [CommRing R] (S : SquashFn R) (lr : R) (net : Network R) :
    List (List (List R)) → Except String (Network R)
  | [] => .ok net
  | sample :: rest =>
    if 2 ≤ sample.length then
      match Network.setInput S net (sample.getD 0 []) with
      | .error e => .error e
      | .ok n1 =>
        match Network.feedForward S (Network.setTarget n1 (sample.getD 1 [])) with
        | .error e => .error e
        | .ok n3 =>
          match Network.backPropagate { n3 with errors := [] } with
          | .error e => .error e
          | .ok n5 => Network.train S lr (Network.update lr n5) rest
    else .error "malformed_sample"

/-- Well-formedness of a matrix: the stored entries fill the declared
shape. -/
def linalg.Matrix.WF {R : Type} (m : linalg.Matrix R) : Prop :=
  m.entries.length = m.numRows ∧ ∀ row ∈ m.entries, row.length = m.numCols

instance {R : Type} (m : linalg.Matrix R) : Decidable m.WF := by
  unfold linalg.Matrix.WF
  infer_instance

/-- Structural well-formedness of a network, as established by the
constructor: the stored layer count matches, there is one weight matrix
per adjacent layer pair, and weight matrix l has shape
size(l+1) by size(l) with fully stored entries. -/
def Network.WF {R : Type} [CommRing R] (net : Network R) : Prop :=
  net.numLayers = net.layers.length ∧
  net.weightMatrices.length + 1 = net.layers.length ∧
  ∀ l < net.weightMatrices.length,
    (net.weightMatrices.getD l default).WF ∧
    (net.weightMatrices.getD l default).numRows = net.sizeAt (l+1) ∧
    (net.weightMatrices.getD l default).numCols = net.sizeAt l

instance {R : Type} [CommRing R] (net : Network R) : Decidable net.WF := by
  unfold Network.WF
  infer_instance

deriving instance DecidableEq for Except

theorem getLastD_eq_getD {α : Type} :
    ∀ (l : List α) (d : α), l.getLastD d = l.getD (l.length - 1) d := by
  intro l
  induction l with
  | nil => intro d; rfl
  | cons x xs ih =>
    intro d
    cases xs with
    | nil => rfl
    | cons y ys =>
      have h1 : (x :: y :: ys).getLastD d = (y :: ys).getLastD d := by
        simp [List.getLastD]
      rw [h1, ih]
      simp [List.getD]

theorem map_listModify_eq {α β : Type} (f : α → β) (g : α → α)
    (h : ∀ x, f (g x) = f x) :
    ∀ (n : ℕ) (l : List α), (listModify g n l).map f = l.map f := by
  intro n l
  induction l generalizing n with
  | nil => cases n <;> rfl
  | cons x xs ih =>
    cases n with
    | zero => simp [listModify, h]
    | succ m => simp [listModify, ih m]

theorem getSize_setBiasAt {R : Type} (L : Layer R) (i : ℕ) (b : R) :
    (L.setBiasAt i b).getSize = L.getSize := by
  simp [Layer.setBiasAt, Layer.getSize, length_listModify]

theorem getInputs_setBiasAt {R : Type} (L : Layer R) (i : ℕ) (b : R) :
    (L.setBiasAt i b).getInputs = L.getInputs :=
  map_listModify_eq Neuron.input (fun nr => { nr with bias := b }) (fun _ => rfl) i L.neurons

theorem getActivations_setBiasAt {R : Type} (L : Layer R) (i : ℕ) (b : R) :
    (L.setBiasAt i b).getActivations = L.getActivations :=
  map_listModify_eq Neuron.activation (fun nr => { nr with bias := b }) (fun _ => rfl) i L.neurons

theorem getDerivatives_setBiasAt {R : Type} (L : Layer R) (i : ℕ) (b : R) :
    (L.setBiasAt i b).getDerivatives = L.getDerivatives :=
  map_listModify_eq Neuron.derivative (fun nr => { nr with bias := b }) (fun _ => rfl) i L.neurons

theorem getBiasAt_setBiasAt_self {R : Type} [CommRing R] (L : Layer R) (i : ℕ) (b : R)
    (h : i < L.getSize) : (L.setBiasAt i b).getBiasAt i = b := by
  have h1 : (L.setBiasAt i b).getBiasAt i =
      ((listModify (fun nr => { nr with bias := b }) i L.neurons).getD i default).bias := rfl
  rw [h1, getD_listModify_self _ _ _ _ h]

theorem getBiasAt_setBiasAt_ne {R : Type} [CommRing R] (L : Layer R) (i j : ℕ) (b : R)
    (h : j ≠ i) : (L.setBiasAt i b).getBiasAt j = L.getBiasAt j := by
  have h1 : (L.setBiasAt i b).getBiasAt j =
      ((listModify (fun nr => { nr with bias := b }) i L.neurons).getD j default).bias := rfl
  rw [h1, getD_listModify_ne _ _ _ _ _ h]
  rfl

theorem neurons_getD_setBiasAt_ne {R : Type} [CommRing R] (L : Layer R) (i j : ℕ) (b : R)
    (h : j ≠ i) :
    (L.setBiasAt i b).neurons.getD j default = L.neurons.getD j default := by
  have h1 : (L.setBiasAt i b).neurons =
      listModify (fun nr => { nr with bias := b }) i L.neurons := rfl
  rw [h1, getD_listModify_ne _ _ _ _ _ h]

theorem entries_length_setEntry {R : Type} (m : linalg.Matrix R) (j i : ℕ) (v : R) :
    (m.setEntry j i v).entries.length = m.entries.length :=
  length_listModify _ _ _

theorem row_length_setEntry {R : Type} (m : linalg.Matrix R) (j i : ℕ) (v : R) (j' : ℕ) :
    ((m.setEntry j i v).entries.getD j' []).length = (m.entries.getD j' []).length := by
  by_cases h : j' = j
  · subst h
    by_cases hj : j' < m.entries.length
    · have h1 : (m.setEntry j' i v).entries.getD j' [] =
          listModify (fun _ => v) i (m.entries.getD j' []) :=
        getD_listModify_self _ _ _ _ hj
      rw [h1, length_listModify]
    · have hj2 : m.entries.length ≤ j' := Nat.le_of_not_lt hj
      have h1 : (m.setEntry j' i v).entries.getD j' [] = ([] : List R) := by
        apply List.getD_eq_default
        rw [entries_length_setEntry]
        exact hj2
      have h2 : m.entries.getD j' [] = ([] : List R) := List.getD_eq_default _ _ hj2
      rw [h1, h2]
  · have h1 : (m.setEntry j i v).entries.getD j' [] = m.entries.getD j' [] :=
      getD_listModify_ne _ _ _ _ _ h
    rw [h1]

theorem get_setEntry_self {R : Type} [CommRing R] (m : linalg.Matrix R) (j i : ℕ) (v : R)
    (hj : j < m.entries.length) (hi : i < (m.entries.getD j []).length) :
    (m.setEntry j i v).get j i = v := by
  have h1 : (m.setEntry j i v).get j i =
      ((listModify (listModify (fun _ => v) i) j m.entries).getD j []).getD i 0 := rfl
  rw [h1, getD_listModify_self _ _ _ _ hj, getD_listModify_self _ _ _ _ hi]

theorem get_setEntry_ne {R : Type} [CommRing R] (m : linalg.Matrix R) (j i : ℕ) (v : R)
    (j' i' : ℕ) (h : j' ≠ j ∨ i' ≠ i) :
    (m.setEntry j i v).get j' i' = m.get j' i' := by
  have h1 : (m.setEntry j i v).get j' i' =
      ((listModify (listModify (fun _ => v) i) j m.entries).getD j' []).getD i' 0 := rfl
  rcases h with h | h
  · rw [h1, getD_listModify_ne _ _ _ _ _ h]
    rfl
  · by_cases hj : j' = j
    · subst hj
      by_cases hjlen : j' < m.entries.length
      · rw [h1, getD_listModify_self _ _ _ _ hjlen, getD_listModify_ne _ _ _ _ _ h]
        rfl
      · have hj2 : m.entries.length ≤ j' := Nat.le_of_not_lt hjlen
        have e1 : (listModify (listModify (fun _ => v) i) j' m.entries).getD j' [] =
            ([] : List R) := by
          apply List.getD_eq_default
          rw [length_listModify]
          exact hj2
        have e2 : m.entries.getD j' [] = ([] : List R) := List.getD_eq_default _ _ hj2
        rw [h1, e1]
        have h2 : m.get j' i' = (m.entries.getD j' []).getD i' 0 := rfl
        rw [h2, e2]
    · rw [h1, getD_listModify_ne _ _ _ _ _ hj]
      rfl

theorem numRows_setEntry {R : Type} (m : linalg.Matrix R) (j i : ℕ) (v : R) :
    (m.setEntry j i v).numRows = m.numRows := rfl

theorem numCols_setEntry {R : Type} (m : linalg.Matrix R) (j i : ℕ) (v : R) :
    (m.setEntry j i v).numCols = m.numCols := rfl

theorem length_matVec {R : Type} [CommRing R] (m : linalg.Matrix R) (v : List R) :
    (linalg.matVec m v).length = m.entries.length := by
  simp [linalg.matVec]

theorem entries_length_transpose {R : Type} [CommRing R] (m : linalg.Matrix R) :
    m.transpose.entries.length = m.numCols := by
  simp [linalg.Matrix.transpose]

theorem length_hadamardProduct {R : Type} [CommRing R] (a b : List R) :
    (linalg.hadamardProduct a b).length = min a.length b.length := by
  simp [linalg.hadamardProduct]

theorem rangeMap_sub_eq_zipWith {R : Type} [CommRing R] :
    ∀ (a b : List R) (n : ℕ), a.length = n → n ≤ b.length →
      (List.range n).map (fun i => a.getD i 0 - b.getD i 0) =
        List.zipWith (fun x y => x - y) a b := by
  intro a
  induction a with
  | nil =>
    intro b n ha _
    subst ha
    simp
  | cons x xs ih =>
    intro b n ha hb
    subst ha
    cases b with
    | nil => simp at hb
    | cons y ys =>
      simp only [List.length_cons]
      rw [List.range_succ_eq_map, List.map_cons, List.map_map]
      have hys : xs.length ≤ ys.length := by simpa using hb
      have h2 := ih ys xs.length rfl hys
      simp only [List.zipWith_cons_cons, List.getD_cons_zero, Function.comp_def,
        List.getD_cons_succ]
      rw [h2]

/-- The backward error sequence appended by the recurrence loop: given
the error e of layer i+1, the errors of layers i, i-1, ..., 1 in
order. -/
def bpList {R : Type} [CommRing R] (net : Network R) : ℕ → List R → List (List R)
  | 0, _ => []
  | i + 1, e =>
    let e2 := linalg.hadamardProduct
      (linalg.matVec ((net.weightMatrices.getD (i+1) default).transpose) e)
      ((net.layers.getD (i+1) default).getDerivatives)
    e2 :: bpList net i e2

theorem bpList_length {R : Type} [CommRing R] (net : Network R) :
    ∀ (i : ℕ) (e : List R), (bpList net i e).length = i := by
  intro i
  induction i with
  | zero => intro e; rfl
  | succ n ih => intro e; simp [bpList, ih]

theorem bpLoop_eq {R : Type} [CommRing R] (net : Network R) :
    ∀ (i : ℕ) (errs : List (List R)), errs ≠ [] →
      (∀ j, 1 ≤ j → j ≤ i → j < net.weightMatrices.length ∧ j < net.layers.length) →
      bpLoop net i errs = .ok (errs ++ bpList net i (errs.getLastD [])) := by
  intro i
  induction i with
  | zero =>
    intro errs _ _
    simp [bpLoop, bpList]
  | succ n ih =>
    intro errs hne hj
    have hw : n + 1 < net.weightMatrices.length := (hj (n+1) (by omega) le_rfl).1
    have hl : n + 1 < net.layers.length := (hj (n+1) (by omega) le_rfl).2
    have hj2 : ∀ j, 1 ≤ j → j ≤ n →
        j < net.weightMatrices.length ∧ j < net.layers.length :=
      fun j h1 h2 => hj j h1 (by omega)
    have hne2 : errs ++ [linalg.hadamardProduct
        (linalg.matVec ((net.weightMatrices.getD (n+1) default).transpose)
          (errs.getLastD []))
        ((net.layers.getD (n+1) default).getDerivatives)] ≠ [] := by simp
    simp only [bpLoop, if_pos hw, if_pos hl]
    rw [ih _ hne2 hj2]
    simp [bpList, List.append_assoc]

theorem bpList_get {R : Type} [CommRing R] (net : Network R) :
    ∀ (i : ℕ) (e : List R) (t : ℕ), t < i →
      (bpList net i e).getD t [] = linalg.hadamardProduct
        (linalg.matVec ((net.weightMatrices.getD (i - t) default).transpose)
          (if t = 0 then e else (bpList net i e).getD (t - 1) []))
        ((net.layers.getD (i - t) default).getDerivatives) := by
  intro i
  induction i with
  | zero => intro e t ht; omega
  | succ n ih =>
    intro e t ht
    cases t with
    | zero =>
      simp [bpList]
    | succ s =>
      have hs : s < n := by omega
      have h1 : (bpList net (n+1) e).getD (s+1) [] =
          (bpList net n (linalg.hadamardProduct
            (linalg.matVec ((net.weightMatrices.getD (n+1) default).transpose) e)
            ((net.layers.getD (n+1) default).getDerivatives))).getD s [] := by
        simp [bpList]
      rw [h1, ih _ s hs]
      have hidx : n - s = n + 1 - (s + 1) := by omega
      rw [hidx]
      cases s with
      | zero =>
        simp [bpList]
      | succ u =>
        have h2 : (bpList net (n+1) e).getD (u+1) [] =
            (bpList net n (linalg.hadamardProduct
              (linalg.matVec ((net.weightMatrices.getD (n+1) default).transpose) e)
              ((net.layers.getD (n+1) default).getDerivatives))).getD u [] := by
          simp [bpList]
        simp only [Nat.succ_ne_zero, if_false, Nat.add_sub_cancel]
        rw [h2]

/-- The error vector of the output layer computed by backPropagate: the
Hadamard product of the cost gradient with the output derivatives. -/
def outputError {R : Type} [CommRing R] (net : Network R) : List R :=
  linalg.hadamardProduct
    (List.zipWith (fun a b => a - b)
      ((net.layers.getD (net.layers.length - 1) default).getActivations)
      net.targetOutput)
    ((net.layers.getD (net.layers.length - 1) default).getDerivatives)

theorem backPropagate_ok {R : Type} [CommRing R] (net : Network R)
    (hnum : net.numLayers = net.layers.length)
    (hwm : net.weightMatrices.length + 1 = net.layers.length)
    (hn : 2 ≤ net.layers.length)
    (htar : net.sizeAt (net.layers.length - 1) ≤ net.targetOutput.length) :
    net.backPropagate = .ok { net with errors :=
      net.errors ++ ((outputError net) ::
        bpList net (net.layers.length - 2) (outputError net)) } := by
  have hlast : net.layers.getLastD default = net.layers.getD (net.layers.length - 1) default := by
    rw [getLastD_eq_getD]
  have hacts : ((net.layers.getD (net.layers.length - 1) default).getActivations).length =
      (net.layers.getD (net.layers.length - 1) default).getSize := by
    simp [Layer.getActivations, Layer.getSize]
  have hcond : (net.layers.getLastD default).getSize ≤ net.targetOutput.length := by
    rw [hlast]
    exact htar
  have hgrad : (List.range (net.layers.getLastD default).getSize).map
      (fun i => ((net.layers.getLastD default).getActivations).getD i 0 -
        net.targetOutput.getD i 0) =
      List.zipWith (fun a b => a - b)
        ((net.layers.getD (net.layers.length - 1) default).getActivations)
        net.targetOutput := by
    rw [hlast]
    exact rangeMap_sub_eq_zipWith _ _ _ hacts htar
  have hloop := bpLoop_eq net (net.layers.length - 2)
    (net.errors ++ [outputError net]) (by simp)
    (by
      intro j h1 h2
      constructor
      · omega
      · omega)
  have hlastD : ((net.errors ++ [outputError net]).getLastD []) = outputError net := by
    simp
  rw [hlastD] at hloop
  simp only [Network.backPropagate]
  rw [if_pos hcond]
  have hnum2 : net.numLayers - 2 = net.layers.length - 2 := by omega
  rw [hgrad, hlast, hnum2]
  have houtE : linalg.hadamardProduct
      (List.zipWith (fun a b => a - b)
        ((net.layers.getD (net.layers.length - 1) default).getActivations)
        net.targetOutput)
      ((net.layers.getD (net.layers.length - 1) default).getDerivatives) =
      outputError net := rfl
  rw [houtE, hloop]
  simp

theorem foldl_pair_decomp {α β γ : Type} (f : γ → α → α) (g : γ → β → β) :
    ∀ (l : List γ) (a : α) (b : β),
      l.foldl (fun (st : α × β) c => (f c st.1, g c st.2)) (a, b) =
        (l.foldl (fun x c => f c x) a, l.foldl (fun x c => g c x) b) := by
  intro l
  induction l with
  | nil => intro a b; rfl
  | cons c t ih => intro a b; simpa using ih (f c a) (g c b)

theorem updateWeightsRow_entries_length {R : Type} [CommRing R] (lr : R)
    (acts err : List R) (j : ℕ) :
    ∀ (k : ℕ) (W : linalg.Matrix R),
      (updateWeightsRow lr acts err j k W).entries.length = W.entries.length := by
  intro k
  induction k with
  | zero => intro W; rfl
  | succ m ih =>
    intro W
    have h1 : updateWeightsRow lr acts err j (m+1) W =
        (updateWeightsRow lr acts err j m W).setEntry j m
          ((updateWeightsRow lr acts err j m W).get j m -
            lr * acts.getD m 0 * err.getD j 0) := by
      simp [updateWeightsRow, List.range_succ]
    rw [h1, entries_length_setEntry, ih]

theorem updateWeightsRow_row_length {R : Type} [CommRing R] (lr : R)
    (acts err : List R) (j : ℕ) :
    ∀ (k : ℕ) (W : linalg.Matrix R) (j' : ℕ),
      ((updateWeightsRow lr acts err j k W).entries.getD j' []).length =
        (W.entries.getD j' []).length := by
  intro k
  induction k with
  | zero => intro W j'; rfl
  | succ m ih =>
    intro W j'
    have h1 : updateWeightsRow lr acts err j (m+1) W =
        (updateWeightsRow lr acts err j m W).setEntry j m
          ((updateWeightsRow lr acts err j m W).get j m -
            lr * acts.getD m 0 * err.getD j 0) := by
      simp [updateWeightsRow, List.range_succ]
    rw [h1, row_length_setEntry, ih]

theorem updateWeightsRow_shape {R : Type} [CommRing R] (lr : R)
    (acts err : List R) (j : ℕ) :
    ∀ (k : ℕ) (W : linalg.Matrix R),
      (updateWeightsRow lr acts err j k W).numRows = W.numRows ∧
      (updateWeightsRow lr acts err j k W).numCols = W.numCols := by
  intro k
  induction k with
  | zero => intro W; exact ⟨rfl, rfl⟩
  | succ m ih =>
    intro W
    have h1 : updateWeightsRow lr acts err j (m+1) W =
        (updateWeightsRow lr acts err j m W).setEntry j m
          ((updateWeightsRow lr acts err j m W).get j m -
            lr * acts.getD m 0 * err.getD j 0) := by
      simp [updateWeightsRow, List.range_succ]
    rw [h1, numRows_setEntry, numCols_setEntry]
    exact ih W

theorem updateWeightsRow_get_ne_row {R : Type} [CommRing R] (lr : R)
    (acts err : List R) (j : ℕ) :
    ∀ (k : ℕ) (W : linalg.Matrix R) (j' i' : ℕ), j' ≠ j →
      (updateWeightsRow lr acts err j k W).get j' i' = W.get j' i' := by
  intro k
  induction k with
  | zero => intro W j' i' _; rfl
  | succ m ih =>
    intro W j' i' hj
    have h1 : updateWeightsRow lr acts err j (m+1) W =
        (updateWeightsRow lr acts err j m W).setEntry j m
          ((updateWeightsRow lr acts err j m W).get j m -
            lr * acts.getD m 0 * err.getD j 0) := by
      simp [updateWeightsRow, List.range_succ]
    rw [h1, get_setEntry_ne _ _ _ _ _ _ (Or.inl hj), ih _ _ _ hj]

theorem updateWeightsRow_get {R : Type} [CommRing R] (lr : R)
    (acts err : List R) (j : ℕ) :
    ∀ (k : ℕ) (W : linalg.Matrix R) (i : ℕ),
      j < W.entries.length → i < (W.entries.getD j []).length →
      (updateWeightsRow lr acts err j k W).get j i =
        if i < k then W.get j i - lr * acts.getD i 0 * err.getD j 0
        else W.get j i := by
  intro k
  induction k with
  | zero =>
    intro W i _ _
    simp [updateWeightsRow]
  | succ m ih =>
    intro W i hj hi
    have h1 : updateWeightsRow lr acts err j (m+1) W =
        (updateWeightsRow lr acts err j m W).setEntry j m
          ((updateWeightsRow lr acts err j m W).get j m -
            lr * acts.getD m 0 * err.getD j 0) := by
      simp [updateWeightsRow, List.range_succ]
    rw [h1]
    by_cases him : i = m
    · subst him
      have hjlen : j < (updateWeightsRow lr acts err j i W).entries.length := by
        rw [updateWeightsRow_entries_length]
        exact hj
      have hilen : i < ((updateWeightsRow lr acts err j i W).entries.getD j []).length := by
        rw [updateWeightsRow_row_length]
        exact hi
      rw [get_setEntry_self _ _ _ _ hjlen hilen, ih _ _ hj hi]
      simp
    · rw [get_setEntry_ne _ _ _ _ _ _ (Or.inr him), ih _ _ hj hi]
      by_cases hlt : i < m
      · rw [if_pos hlt, if_pos (by omega)]
      · rw [if_neg hlt, if_neg (by omega)]

theorem setBiasFold_data {R : Type} [CommRing R] (v : Layer R → ℕ → R) :
    ∀ (k : ℕ) (L0 : Layer R),
      ((List.range k).foldl (fun L j => Layer.setBiasAt L j (v L j)) L0).getSize = L0.getSize ∧
      ((List.range k).foldl (fun L j => Layer.setBiasAt L j (v L j)) L0).getInputs = L0.getInputs ∧
      ((List.range k).foldl (fun L j => Layer.setBiasAt L j (v L j)) L0).getActivations = L0.getActivations ∧
      ((List.range k).foldl (fun L j => Layer.setBiasAt L j (v L j)) L0).getDerivatives = L0.getDerivatives := by
  intro k
  induction k with
  | zero => intro L0; exact ⟨rfl, rfl, rfl, rfl⟩
  | succ m ih =>
    intro L0
    have h1 : (List.range (m+1)).foldl (fun L j => Layer.setBiasAt L j (v L j)) L0 =
        Layer.setBiasAt ((List.range m).foldl (fun L j => Layer.setBiasAt L j (v L j)) L0) m
          (v ((List.range m).foldl (fun L j => Layer.setBiasAt L j (v L j)) L0) m) := by
      rw [List.range_succ, List.foldl_append]
      rfl
    rw [h1, getSize_setBiasAt, getInputs_setBiasAt, getActivations_setBiasAt,
      getDerivatives_setBiasAt]
    exact ih L0

theorem updateBiasFold_getBiasAt {R : Type} [CommRing R] (c : ℕ → R) :
    ∀ (k : ℕ) (L0 : Layer R), k ≤ L0.getSize → ∀ j : ℕ,
      ((List.range k).foldl
        (fun L i => Layer.setBiasAt L i (Layer.getBiasAt L i - c i)) L0).getBiasAt j =
        if j < k then L0.getBiasAt j - c j else L0.getBiasAt j := by
  intro k
  induction k with
  | zero =>
    intro L0 _ j
    simp
  | succ m ih =>
    intro L0 hk j
    have hm : m ≤ L0.getSize := by omega
    have h1 : (List.range (m+1)).foldl
        (fun L i => Layer.setBiasAt L i (Layer.getBiasAt L i - c i)) L0 =
        Layer.setBiasAt ((List.range m).foldl
            (fun L i => Layer.setBiasAt L i (Layer.getBiasAt L i - c i)) L0) m
          (Layer.getBiasAt ((List.range m).foldl
            (fun L i => Layer.setBiasAt L i (Layer.getBiasAt L i - c i)) L0) m -
           c m) := by
      rw [List.range_succ, List.foldl_append]
      rfl
    rw [h1]
    by_cases hj : j = m
    · subst hj
      have hsize : j < ((List.range j).foldl
          (fun L i => Layer.setBiasAt L i (Layer.getBiasAt L i - c i)) L0).getSize := by
        rw [(setBiasFold_data _ j L0).1]
        omega
      rw [getBiasAt_setBiasAt_self _ _ _ hsize, ih L0 hm j, if_neg (by omega),
        if_pos (by omega)]
    · rw [getBiasAt_setBiasAt_ne _ _ _ _ hj, ih L0 hm j]
      by_cases hlt : j < m
      · rw [if_pos hlt, if_pos (by omega)]
      · rw [if_neg hlt, if_neg (by omega)]

theorem constBiasFold_getBiasAt {R : Type} [CommRing R] (w : ℕ → R) :
    ∀ (k : ℕ) (L0 : Layer R), k ≤ L0.getSize → ∀ j : ℕ,
      ((List.range k).foldl (fun L i => Layer.setBiasAt L i (w i)) L0).getBiasAt j =
        if j < k then w j else L0.getBiasAt j := by
  intro k
  induction k with
  | zero =>
    intro L0 _ j
    simp
  | succ m ih =>
    intro L0 hk j
    have hm : m ≤ L0.getSize := by omega
    have h1 : (List.range (m+1)).foldl (fun L i => Layer.setBiasAt L i (w i)) L0 =
        Layer.setBiasAt
          ((List.range m).foldl (fun L i => Layer.setBiasAt L i (w i)) L0) m (w m) := by
      rw [List.range_succ, List.foldl_append]
      rfl
    rw [h1]
    by_cases hj : j = m
    · subst hj
      have hsize : j < ((List.range j).foldl
          (fun L i => Layer.setBiasAt L i (w i)) L0).getSize := by
        rw [(setBiasFold_data _ j L0).1]
        omega
      rw [getBiasAt_setBiasAt_self _ _ _ hsize, if_pos (by omega)]
    · rw [getBiasAt_setBiasAt_ne _ _ _ _ hj, ih L0 hm j]
      by_cases hlt : j < m
      · rw [if_pos hlt, if_pos (by omega)]
      · rw [if_neg hlt, if_neg (by omega)]

theorem weightsFold_dims {R : Type} [CommRing R] (lr : R) (acts err : List R) (sCur : ℕ) :
    ∀ (m : ℕ) (W0 : linalg.Matrix R),
      ((List.range m).foldl (fun W j => updateWeightsRow lr acts err j sCur W) W0).entries.length = W0.entries.length ∧
      (∀ j', (((List.range m).foldl (fun W j => updateWeightsRow lr acts err j sCur W) W0).entries.getD j' []).length = (W0.entries.getD j' []).length) ∧
      ((List.range m).foldl (fun W j => updateWeightsRow lr acts err j sCur W) W0).numRows = W0.numRows ∧
      ((List.range m).foldl (fun W j => updateWeightsRow lr acts err j sCur W) W0).numCols = W0.numCols := by
  intro m
  induction m with
  | zero => intro W0; exact ⟨rfl, fun _ => rfl, rfl, rfl⟩
  | succ n ih =>
    intro W0
    have h1 : (List.range (n+1)).foldl (fun W j => updateWeightsRow lr acts err j sCur W) W0 =
        updateWeightsRow lr acts err n sCur
          ((List.range n).foldl (fun W j => updateWeightsRow lr acts err j sCur W) W0) := by
      rw [List.range_succ, List.foldl_append]
      rfl
    rw [h1]
    refine ⟨?_, ?_, ?_, ?_⟩
    · rw [updateWeightsRow_entries_length, (ih W0).1]
    · intro j'
      rw [updateWeightsRow_row_length]
      exact (ih W0).2.1 j'
    · rw [(updateWeightsRow_shape lr acts err n sCur _).1, (ih W0).2.2.1]
    · rw [(updateWeightsRow_shape lr acts err n sCur _).2, (ih W0).2.2.2]

theorem weightsFold_get_ge {R : Type} [CommRing R] (lr : R) (acts err : List R) (sCur : ℕ) :
    ∀ (m : ℕ) (W0 : linalg.Matrix R) (j i : ℕ), m ≤ j →
      ((List.range m).foldl (fun W j2 => updateWeightsRow lr acts err j2 sCur W) W0).get j i =
        W0.get j i := by
  intro m
  induction m with
  | zero => intro W0 j i _; rfl
  | succ n ih =>
    intro W0 j i hj
    have h1 : (List.range (n+1)).foldl (fun W j2 => updateWeightsRow lr acts err j2 sCur W) W0 =
        updateWeightsRow lr acts err n sCur
          ((List.range n).foldl (fun W j2 => updateWeightsRow lr acts err j2 sCur W) W0) := by
      rw [List.range_succ, List.foldl_append]
      rfl
    rw [h1, updateWeightsRow_get_ne_row _ _ _ _ _ _ _ _ (by omega), ih _ _ _ (by omega)]

theorem weightsFold_get {R : Type} [CommRing R] (lr : R) (acts err : List R) (sCur : ℕ) :
    ∀ (m : ℕ) (W0 : linalg.Matrix R) (j i : ℕ),
      j < W0.entries.length → i < (W0.entries.getD j []).length → j < m →
      ((List.range m).foldl (fun W j2 => updateWeightsRow lr acts err j2 sCur W) W0).get j i =
        if i < sCur then W0.get j i - lr * acts.getD i 0 * err.getD j 0
        else W0.get j i := by
  intro m
  induction m with
  | zero => intro W0 j i _ _ h; omega
  | succ n ih =>
    intro W0 j i hjlen hilen hjm
    have h1 : (List.range (n+1)).foldl (fun W j2 => updateWeightsRow lr acts err j2 sCur W) W0 =
        updateWeightsRow lr acts err n sCur
          ((List.range n).foldl (fun W j2 => updateWeightsRow lr acts err j2 sCur W) W0) := by
      rw [List.range_succ, List.foldl_append]
      rfl
    rw [h1]
    by_cases hj : j = n
    · subst hj
      have hjlen2 : j < ((List.range j).foldl
          (fun W j2 => updateWeightsRow lr acts err j2 sCur W) W0).entries.length := by
        rw [(weightsFold_dims lr acts err sCur j W0).1]
        exact hjlen
      have hilen2 : i < (((List.range j).foldl
          (fun W j2 => updateWeightsRow lr acts err j2 sCur W) W0).entries.getD j []).length := by
        rw [(weightsFold_dims lr acts err sCur j W0).2.1 j]
        exact hilen
      rw [updateWeightsRow_get _ _ _ _ _ _ _ hjlen2 hilen2,
        weightsFold_get_ge _ _ _ _ _ _ _ _ le_rfl]
    · rw [updateWeightsRow_get_ne_row _ _ _ _ _ _ _ _ hj, ih _ _ _ hjlen hilen (by omega)]

theorem updateLayer_eq {R : Type} [CommRing R] (lr : R) (net : Network R) (l : ℕ) :
    updateLayer lr net l = { net with
      weightMatrices := listModify (fun _ => (List.range (net.sizeAt (l+1))).foldl
        (fun W j => updateWeightsRow lr ((net.layers.getD l default).getActivations)
          (net.errors.getD (net.errors.length - 1 - l) []) j (net.sizeAt l) W)
        (net.weightMatrices.getD l default)) l net.weightMatrices,
      layers := listModify (fun _ => (List.range (net.sizeAt (l+1))).foldl
        (fun L j => Layer.setBiasAt L j (Layer.getBiasAt L j -
          lr * ((net.errors.getD (net.errors.length - 1 - l) []).getD j 0)))
        (net.layers.getD (l+1) default)) (l+1) net.layers } := by
  simp only [updateLayer, Network.sizeAt]
  rw [foldl_pair_decomp
    (fun c x => updateWeightsRow lr ((net.layers.getD l default).getActivations)
      (net.errors.getD (net.errors.length - 1 - l) []) c
      ((net.layers.getD l default).getSize) x)
    (fun c x => Layer.setBiasAt x c (Layer.getBiasAt x c -
      lr * ((net.errors.getD (net.errors.length - 1 - l) []).getD c 0)))]

theorem updateLayer_fields {R : Type} [CommRing R] (lr : R) (net : Network R) (l : ℕ) :
    (updateLayer lr net l).errors = net.errors ∧
    (updateLayer lr net l).input = net.input ∧
    (updateLayer lr net l).targetOutput = net.targetOutput ∧
    (updateLayer lr net l).numLayers = net.numLayers ∧
    (updateLayer lr net l).layerSizes = net.layerSizes := by
  rw [updateLayer_eq]
  exact ⟨rfl, rfl, rfl, rfl, rfl⟩

theorem updateLayer_layers_length {R : Type} [CommRing R] (lr : R) (net : Network R) (l : ℕ) :
    (updateLayer lr net l).layers.length = net.layers.length := by
  rw [updateLayer_eq]
  exact length_listModify _ _ _

theorem updateLayer_wm_length {R : Type} [CommRing R] (lr : R) (net : Network R) (l : ℕ) :
    (updateLayer lr net l).weightMatrices.length = net.weightMatrices.length := by
  rw [updateLayer_eq]
  exact length_listModify _ _ _

theorem updateLayer_layers_getD_ne {R : Type} [CommRing R] (lr : R) (net : Network R)
    (l m : ℕ) (hm : m ≠ l + 1) :
    (updateLayer lr net l).layers.getD m default = net.layers.getD m default := by
  rw [updateLayer_eq]
  exact getD_listModify_ne _ _ _ _ _ hm

theorem updateLayer_wm_getD_ne {R : Type} [CommRing R] (lr : R) (net : Network R)
    (l m : ℕ) (hm : m ≠ l) :
    (updateLayer lr net l).weightMatrices.getD m default = net.weightMatrices.getD m default := by
  rw [updateLayer_eq]
  exact getD_listModify_ne _ _ _ _ _ hm

theorem updateLayer_layer_next {R : Type} [CommRing R] (lr : R) (net : Network R) (l : ℕ) :
    (updateLayer lr net l).layers.getD (l+1) default =
      (List.range (net.sizeAt (l+1))).foldl
        (fun L j => Layer.setBiasAt L j (Layer.getBiasAt L j -
          lr * ((net.errors.getD (net.errors.length - 1 - l) []).getD j 0)))
        (net.layers.getD (l+1) default) := by
  rw [updateLayer_eq]
  by_cases hl : l + 1 < net.layers.length
  · exact getD_listModify_self _ _ _ _ hl
  · have h2 : net.layers.length ≤ l + 1 := by omega
    have e1 : (net.layers.getD (l+1) default) = (default : Layer R) :=
      List.getD_eq_default _ _ h2
    have e2 : (listModify (fun _ => (List.range (net.sizeAt (l+1))).foldl
        (fun L j => Layer.setBiasAt L j (Layer.getBiasAt L j -
          lr * ((net.errors.getD (net.errors.length - 1 - l) []).getD j 0)))
        (net.layers.getD (l+1) default)) (l+1) net.layers).getD (l+1) default =
        (default : Layer R) := by
      apply List.getD_eq_default
      rw [length_listModify]
      exact h2
    rw [e2, e1]
    have hsz : net.sizeAt (l+1) = 0 := by
      unfold Network.sizeAt
      rw [e1]
      rfl
    rw [hsz]
    rfl

theorem updateLayer_wm_self {R : Type} [CommRing R] (lr : R) (net : Network R) (l : ℕ)
    (hl : l < net.weightMatrices.length) :
    (updateLayer lr net l).weightMatrices.getD l default =
      (List.range (net.sizeAt (l+1))).foldl
        (fun W j => updateWeightsRow lr ((net.layers.getD l default).getActivations)
          (net.errors.getD (net.errors.length - 1 - l) []) j (net.sizeAt l) W)
        (net.weightMatrices.getD l default) := by
  rw [updateLayer_eq]
  exact getD_listModify_self _ _ _ _ hl

theorem updateLayer_layer_data {R : Type} [CommRing R] (lr : R) (net : Network R)
    (l m : ℕ) :
    ((updateLayer lr net l).layers.getD m default).getSize = ((net.layers.getD m default)).getSize ∧
    ((updateLayer lr net l).layers.getD m default).getInputs = ((net.layers.getD m default)).getInputs ∧
    ((updateLayer lr net l).layers.getD m default).getActivations = ((net.layers.getD m default)).getActivations ∧
    ((updateLayer lr net l).layers.getD m default).getDerivatives = ((net.layers.getD m default)).getDerivatives := by
  by_cases hm : m = l + 1
  · subst hm
    rw [updateLayer_layer_next]
    exact setBiasFold_data _ _ _
  · rw [updateLayer_layers_getD_ne _ _ _ _ hm]
    exact ⟨rfl, rfl, rfl, rfl⟩

theorem updateFold_fields {R : Type} [CommRing R] (lr : R) :
    ∀ (idxs : List ℕ) (net : Network R),
      (idxs.foldl (updateLayer lr) net).errors = net.errors ∧
      (idxs.foldl (updateLayer lr) net).input = net.input ∧
      (idxs.foldl (updateLayer lr) net).targetOutput = net.targetOutput ∧
      (idxs.foldl (updateLayer lr) net).numLayers = net.numLayers ∧
      (idxs.foldl (updateLayer lr) net).layerSizes = net.layerSizes ∧
      (idxs.foldl (updateLayer lr) net).layers.length = net.layers.length ∧
      (idxs.foldl (updateLayer lr) net).weightMatrices.length = net.weightMatrices.length := by
  intro idxs
  induction idxs with
  | nil => intro net; exact ⟨rfl, rfl, rfl, rfl, rfl, rfl, rfl⟩
  | cons a t ih =>
    intro net
    have h1 : (a :: t).foldl (updateLayer lr) net = t.foldl (updateLayer lr) (updateLayer lr net a) := rfl
    rw [h1]
    obtain ⟨e1, e2, e3, e4, e5⟩ := updateLayer_fields lr net a
    obtain ⟨f1, f2, f3, f4, f5, f6, f7⟩ := ih (updateLayer lr net a)
    refine ⟨?_, ?_, ?_, ?_, ?_, ?_, ?_⟩
    · rw [f1, e1]
    · rw [f2, e2]
    · rw [f3, e3]
    · rw [f4, e4]
    · rw [f5, e5]
    · rw [f6, updateLayer_layers_length]
    · rw [f7, updateLayer_wm_length]

theorem updateFold_layer_data {R : Type} [CommRing R] (lr : R) :
    ∀ (idxs : List ℕ) (net : Network R) (m : ℕ),
      ((idxs.foldl (updateLayer lr) net).layers.getD m default).getSize = ((net.layers.getD m default)).getSize ∧
      ((idxs.foldl (updateLayer lr) net).layers.getD m default).getInputs = ((net.layers.getD m default)).getInputs ∧
      ((idxs.foldl (updateLayer lr) net).layers.getD m default).getActivations = ((net.layers.getD m default)).getActivations ∧
      ((idxs.foldl (updateLayer lr) net).layers.getD m default).getDerivatives = ((net.layers.getD m default)).getDerivatives := by
  intro idxs
  induction idxs with
  | nil => intro net m; exact ⟨rfl, rfl, rfl, rfl⟩
  | cons a t ih =>
    intro net m
    have h1 : (a :: t).foldl (updateLayer lr) net = t.foldl (updateLayer lr) (updateLayer lr net a) := rfl
    rw [h1]
    obtain ⟨e1, e2, e3, e4⟩ := updateLayer_layer_data lr net a m
    obtain ⟨f1, f2, f3, f4⟩ := ih (updateLayer lr net a) m
    exact ⟨by rw [f1, e1], by rw [f2, e2], by rw [f3, e3], by rw [f4, e4]⟩

theorem updateFold_layers_untouched {R : Type} [CommRing R] (lr : R) :
    ∀ (idxs : List ℕ) (net : Network R) (m : ℕ), (∀ i ∈ idxs, i + 1 ≠ m) →
      (idxs.foldl (updateLayer lr) net).layers.getD m default = net.layers.getD m default := by
  intro idxs
  induction idxs with
  | nil => intro net m _; rfl
  | cons a t ih =>
    intro net m hm
    have h1 : (a :: t).foldl (updateLayer lr) net = t.foldl (updateLayer lr) (updateLayer lr net a) := rfl
    rw [h1, ih _ _ (fun i hi => hm i (List.mem_cons_of_mem a hi)),
      updateLayer_layers_getD_ne _ _ _ _ (by
        have := hm a (List.mem_cons_self a t)
        omega)]

theorem updateFold_wm_untouched {R : Type} [CommRing R] (lr : R) :
    ∀ (idxs : List ℕ) (net : Network R) (m : ℕ), m ∉ idxs →
      (idxs.foldl (updateLayer lr) net).weightMatrices.getD m default = net.weightMatrices.getD m default := by
  intro idxs
  induction idxs with
  | nil => intro net m _; rfl
  | cons a t ih =>
    intro net m hm
    have h1 : (a :: t).foldl (updateLayer lr) net = t.foldl (updateLayer lr) (updateLayer lr net a) := rfl
    have hma : m ≠ a := fun h => hm (h ▸ List.mem_cons_self a t)
    rw [h1, ih _ _ (fun h => hm (List.mem_cons_of_mem a h)),
      updateLayer_wm_getD_ne _ _ _ _ hma]

theorem WF_row_length {R : Type} [CommRing R] (m : linalg.Matrix R) (hwf : m.WF)
    (j : ℕ) (hj : j < m.entries.length) :
    (m.entries.getD j []).length = m.numCols := by
  have h1 : m.entries.getD j [] = m.entries[j] := List.getD_eq_getElem m.entries [] hj
  rw [h1]
  exact hwf.2 _ (List.getElem_mem hj)

theorem update_split {R : Type} [CommRing R] (lr : R) (net : Network R) (l : ℕ)
    (hl : l < net.weightMatrices.length) :
    Network.update lr net =
      ((List.range (net.weightMatrices.length - l - 1)).map (fun t => l + 1 + t)).foldl
        (updateLayer lr)
        (updateLayer lr ((List.range l).foldl (updateLayer lr) net) l) := by
  unfold Network.update
  have h1 : net.weightMatrices.length = (l + 1) + (net.weightMatrices.length - l - 1) := by
    omega
  conv_lhs => rw [h1, List.range_add, List.foldl_append, List.range_succ, List.foldl_append]
  rfl

theorem update_wm_bias_formula {R : Type} [CommRing R] (lr : R) (net : Network R)
    (hwf : net.WF) (l : ℕ) (hl : l < net.weightMatrices.length) :
    (∀ j, j < net.sizeAt (l+1) → ∀ i, i < net.sizeAt l →
      ((Network.update lr net).weightMatrices.getD l default).get j i =
        (net.weightMatrices.getD l default).get j i -
          lr * ((net.layers.getD l default).getActivations.getD i 0) *
            ((net.errors.getD (net.errors.length - 1 - l) []).getD j 0)) ∧
    (∀ j, j < net.sizeAt (l+1) →
      ((Network.update lr net).layers.getD (l+1) default).getBiasAt j =
        (net.layers.getD (l+1) default).getBiasAt j -
          lr * ((net.errors.getD (net.errors.length - 1 - l) []).getD j 0)) := by
  obtain ⟨hA_err, _, _, _, _, _, hA_wmlen⟩ := updateFold_fields lr (List.range l) net
  have hA_wm_l : ((List.range l).foldl (updateLayer lr) net).weightMatrices.getD l default =
      net.weightMatrices.getD l default :=
    updateFold_wm_untouched lr _ net l (by simp)
  have hA_layer_l1 : ((List.range l).foldl (updateLayer lr) net).layers.getD (l+1) default =
      net.layers.getD (l+1) default :=
    updateFold_layers_untouched lr _ net (l+1) (by
      intro i hi
      have : i < l := List.mem_range.mp hi
      omega)
  obtain ⟨hA_size_l, _, hA_acts_l, _⟩ := updateFold_layer_data lr (List.range l) net l
  obtain ⟨hA_size_l1, _, _, _⟩ := updateFold_layer_data lr (List.range l) net (l+1)
  have hBsplit := update_split lr net l hl
  have htail_wm : ∀ netB : Network R,
      (((List.range (net.weightMatrices.length - l - 1)).map (fun t => l + 1 + t)).foldl
        (updateLayer lr) netB).weightMatrices.getD l default =
      netB.weightMatrices.getD l default := by
    intro netB
    apply updateFold_wm_untouched
    intro h
    obtain ⟨t, _, ht⟩ := List.mem_map.mp h
    omega
  have htail_layer : ∀ netB : Network R,
      (((List.range (net.weightMatrices.length - l - 1)).map (fun t => l + 1 + t)).foldl
        (updateLayer lr) netB).layers.getD (l+1) default =
      netB.layers.getD (l+1) default := by
    intro netB
    apply updateFold_layers_untouched
    intro i hi
    obtain ⟨t, _, ht⟩ := List.mem_map.mp hi
    omega
  have hlA : l < ((List.range l).foldl (updateLayer lr) net).weightMatrices.length := by
    rw [hA_wmlen]
    exact hl
  have hsizeA1 : ((List.range l).foldl (updateLayer lr) net).sizeAt (l+1) = net.sizeAt (l+1) := by
    unfold Network.sizeAt
    exact hA_size_l1
  have hsizeA0 : ((List.range l).foldl (updateLayer lr) net).sizeAt l = net.sizeAt l := by
    unfold Network.sizeAt
    exact hA_size_l
  have hwm_self := updateLayer_wm_self lr ((List.range l).foldl (updateLayer lr) net) l hlA
  rw [hsizeA1, hsizeA0, hA_acts_l, hA_err, hA_wm_l] at hwm_self
  have hlayer_next := updateLayer_layer_next lr ((List.range l).foldl (updateLayer lr) net) l
  rw [hsizeA1, hA_err, hA_layer_l1] at hlayer_next
  obtain ⟨hWF_l, hRows_l, hCols_l⟩ := hwf.2.2 l hl
  constructor
  · intro j hj i hi
    rw [hBsplit, htail_wm, hwm_self]
    have hjlen : j < (net.weightMatrices.getD l default).entries.length := by
      rw [hWF_l.1, hRows_l]
      exact hj
    have hilen : i < ((net.weightMatrices.getD l default).entries.getD j []).length := by
      rw [WF_row_length _ hWF_l j hjlen, hCols_l]
      exact hi
    rw [weightsFold_get lr _ _ _ _ _ j i hjlen hilen hj, if_pos hi]
  · intro j hj
    rw [hBsplit, htail_layer, hlayer_next]
    have hk : net.sizeAt (l+1) ≤ (net.layers.getD (l+1) default).getSize := le_refl _
    rw [updateBiasFold_getBiasAt _ _ _ hk j, if_pos hj]

/-- Number of random draws consumed by the first k iterations of the
constructor loop: each iteration l draws size(l+1) times size(l) matrix
entries and then size(l+1) biases. -/
def consumed (sizes : List ℕ) : ℕ → ℕ
  | 0 => 0
  | k + 1 => consumed sizes k + sizes.getD (k+1) 0 * sizes.getD k 0 + sizes.getD (k+1) 0

/-- The network state before the constructor loop runs. -/
def constructInit {R : Type} [CommRing R] (S : SquashFn R) (sizes : List ℕ) : Network R :=
  { layerSizes := sizes
    numLayers := sizes.length
    layers := sizes.map (Layer.ofSize S)
    weightMatrices := []
    input := []
    targetOutput := []
    errors := [] }

theorem construct_eq {R : Type} [CommRing R] (S : SquashFn R) (sup : ℕ → R)
    (sizes : List ℕ) :
    Network.construct S sup sizes =
      ((List.range (sizes.length - 1)).foldl (constructStep sup sizes)
        (constructInit S sizes, 0)).1 := rfl

theorem getSize_ofSize {R : Type} [CommRing R] (S : SquashFn R) (n : ℕ) :
    (Layer.ofSize S n).getSize = n := by
  simp [Layer.ofSize, Layer.getSize]

theorem getBiasAt_ofSize {R : Type} [CommRing R] (S : SquashFn R) (n j : ℕ) :
    (Layer.ofSize S n).getBiasAt j = 0 := by
  unfold Layer.ofSize Layer.getBiasAt
  by_cases h : j < n
  · have h2 : j < (List.replicate n (⟨0, S.sq 0, S.dsq 0, 0⟩ : Neuron R)).length := by
      simpa using h
    rw [List.getD_eq_getElem _ _ h2, List.getElem_replicate]
  · have h2 : (List.replicate n (⟨0, S.sq 0, S.dsq 0, 0⟩ : Neuron R)).length ≤ j := by
      simpa using Nat.le_of_not_lt h
    rw [List.getD_eq_default _ _ h2]
    rfl

theorem getD_map_ofSize {R : Type} [CommRing R] (S : SquashFn R) (sizes : List ℕ) (m : ℕ) :
    (sizes.map (Layer.ofSize S)).getD m default = Layer.ofSize S (sizes.getD m 0) := by
  by_cases h : m < sizes.length
  · have h2 : m < (sizes.map (Layer.ofSize S)).length := by simpa using h
    rw [List.getD_eq_getElem _ _ h2, List.getD_eq_getElem _ _ h, List.getElem_map]
  · have h1 : sizes.length ≤ m := Nat.le_of_not_lt h
    have h2 : (sizes.map (Layer.ofSize S)).length ≤ m := by simpa using h1
    rw [List.getD_eq_default _ _ h2, List.getD_eq_default _ _ h1]
    rfl

theorem constructStep_eq {R : Type} [CommRing R] (sup : ℕ → R) (sizes : List ℕ)
    (st : Network R × ℕ) (l : ℕ) :
    constructStep sup sizes st l =
      ({ st.1 with
          weightMatrices := st.1.weightMatrices ++
            [linalg.Matrix.mkRandom (sizes.getD (l+1) 0) (sizes.getD l 0) sup st.2],
          layers := listModify (fun _ =>
            (List.range ((st.1.layers.getD (l+1) default).getSize)).foldl
              (fun L j => Layer.setBiasAt L j
                (sup (st.2 + sizes.getD (l+1) 0 * sizes.getD l 0 + j)))
              (st.1.layers.getD (l+1) default)) (l+1) st.1.layers },
       st.2 + sizes.getD (l+1) 0 * sizes.getD l 0 +
         (st.1.layers.getD (l+1) default).getSize) := rfl

theorem constructFold_spec {R : Type} [CommRing R] (S : SquashFn R) (sup : ℕ → R)
    (sizes : List ℕ) :
    ∀ (k : ℕ), k + 1 ≤ sizes.length →
      ((List.range k).foldl (constructStep sup sizes) (constructInit S sizes, 0)).2 =
        consumed sizes k ∧
      ((List.range k).foldl (constructStep sup sizes) (constructInit S sizes, 0)).1.layers.length = sizes.length ∧
      ((List.range k).foldl (constructStep sup sizes) (constructInit S sizes, 0)).1.weightMatrices.length = k ∧
      (∀ l, l < k →
        ((List.range k).foldl (constructStep sup sizes) (constructInit S sizes, 0)).1.weightMatrices.getD l default =
          linalg.Matrix.mkRandom (sizes.getD (l+1) 0) (sizes.getD l 0) sup (consumed sizes l)) ∧
      (∀ m, (m = 0 ∨ k < m) →
        ((List.range k).foldl (constructStep sup sizes) (constructInit S sizes, 0)).1.layers.getD m default =
          Layer.ofSize S (sizes.getD m 0)) ∧
      (∀ m, 1 ≤ m → m ≤ k →
        ((List.range k).foldl (constructStep sup sizes) (constructInit S sizes, 0)).1.layers.getD m default =
          (List.range (sizes.getD m 0)).foldl
            (fun L j => Layer.setBiasAt L j
              (sup (consumed sizes (m-1) + sizes.getD m 0 * sizes.getD (m-1) 0 + j)))
            (Layer.ofSize S (sizes.getD m 0))) := by
  intro k
  induction k with
  | zero =>
    intro _
    refine ⟨rfl, by simp [constructInit], rfl, ?_, ?_, ?_⟩
    · intro l hl
      omega
    · intro m _
      exact getD_map_ofSize S sizes m
    · intro m h1 h2
      omega
  | succ k ih =>
    intro hk1
    have hk : k + 1 ≤ sizes.length := by omega
    obtain ⟨i1, i2, i3, i4, i5, i6⟩ := ih hk
    have hsplit : (List.range (k+1)).foldl (constructStep sup sizes) (constructInit S sizes, 0) =
        constructStep sup sizes
          ((List.range k).foldl (constructStep sup sizes) (constructInit S sizes, 0)) k := by
      rw [List.range_succ, List.foldl_append]
      rfl
    have hlayerK1 : ((List.range k).foldl (constructStep sup sizes)
        (constructInit S sizes, 0)).1.layers.getD (k+1) default =
        Layer.ofSize S (sizes.getD (k+1) 0) :=
      i5 (k+1) (Or.inr (by omega))
    rw [hsplit, constructStep_eq]
    rw [hlayerK1, getSize_ofSize]
    refine ⟨?_, ?_, ?_, ?_, ?_, ?_⟩
    · rw [i1]
      simp [consumed]
    · simp only [length_listModify]
      exact i2
    · simp only [List.length_append, List.length_singleton]
      rw [i3]
    · intro l hl
      by_cases hlk : l < k
      · rw [List.getD_append _ _ _ _ (by rw [i3]; exact hlk)]
        exact i4 l hlk
      · have hleq : l = k := by omega
        subst hleq
        rw [List.getD_append_right _ _ _ _ (by rw [i3])]
        rw [i3, i1]
        simp
    · intro m hm
      have hne : m ≠ k + 1 := by omega
      rw [getD_listModify_ne _ _ _ _ _ hne]
      apply i5
      omega
    · intro m h1 h2
      by_cases hmk : m ≤ k
      · have hne : m ≠ k + 1 := by omega
        rw [getD_listModify_ne _ _ _ _ _ hne]
        exact i6 m h1 hmk
      · have hmeq : m = k + 1 := by omega
        subst hmeq
        have hlen : k + 1 < ((List.range k).foldl (constructStep sup sizes)
            (constructInit S sizes, 0)).1.layers.length := by
          rw [i2]
          omega
        rw [getD_listModify_self _ _ _ _ hlen, i1]
        simp only [Nat.add_sub_cancel]

theorem update_errors {R : Type} [CommRing R] (lr : R) (net : Network R) :
    (Network.update lr net).errors = net.errors :=
  (updateFold_fields lr _ net).1

theorem train_snoc {R : Type} [CommRing R] (S : SquashFn R) (lr : R) (s : List (List R)) :
    ∀ (ss : List (List (List R))) (net net2 : Network R),
      Network.train S lr net (ss ++ [s]) = .ok net2 →
      ∃ m n1 n3 n5, Network.train S lr net ss = .ok m ∧
        Network.setInput S m (s.getD 0 []) = .ok n1 ∧
        Network.feedForward S (Network.setTarget n1 (s.getD 1 [])) = .ok n3 ∧
        Network.backPropagate { n3 with errors := [] } = .ok n5 ∧
        net2 = Network.update lr n5 ∧ net2.errors = n5.errors := by
  intro ss
  induction ss with
  | nil =>
    intro net net2 h
    rw [List.nil_append] at h
    by_cases h2 : 2 ≤ s.length
    · rcases hsi : Network.setInput S net (s.getD 0 []) with e | n1
      · simp only [Network.train, if_pos h2, hsi] at h
        exact Except.noConfusion h
      · rcases hf : Network.feedForward S (Network.setTarget n1 (s.getD 1 [])) with e | n3
        · simp only [Network.train, if_pos h2, hsi, hf] at h
          exact Except.noConfusion h
        · rcases hb : Network.backPropagate { n3 with errors := [] } with e | n5
          · simp only [Network.train, if_pos h2, hsi, hf, hb] at h
            exact Except.noConfusion h
          · simp only [Network.train, if_pos h2, hsi, hf, hb, Except.ok.injEq] at h
            exact ⟨net, n1, n3, n5, rfl, hsi, hf, hb, h.symm,
              by rw [h.symm, update_errors]⟩
    · simp only [Network.train, if_neg h2] at h
      exact Except.noConfusion h
  | cons a t ih =>
    intro net net2 h
    have hc : (a :: t) ++ [s] = a :: (t ++ [s]) := rfl
    rw [hc] at h
    by_cases h2 : 2 ≤ a.length
    · rcases hsi : Network.setInput S net (a.getD 0 []) with e | n1
      · simp only [Network.train, if_pos h2, hsi] at h
        exact Except.noConfusion h
      · rcases hf : Network.feedForward S (Network.setTarget n1 (a.getD 1 [])) with e | n3
        · simp only [Network.train, if_pos h2, hsi, hf] at h
          exact Except.noConfusion h
        · rcases hb : Network.backPropagate { n3 with errors := [] } with e | n5
          · simp only [Network.train, if_pos h2, hsi, hf, hb] at h
            exact Except.noConfusion h
          · simp only [Network.train, if_pos h2, hsi, hf, hb] at h
            obtain ⟨m, m1, m3, m5, hm, hy1, hy3, hy5, hnet2, herrs⟩ :=
              ih (Network.update lr n5) net2 h
            refine ⟨m, m1, m3, m5, ?_, hy1, hy3, hy5, hnet2, herrs⟩
            simp only [Network.train, if_pos h2, hsi, hf, hb]
            exact hm
    · simp only [Network.train, if_neg h2] at h
      exact Except.noConfusion h

theorem getDerivatives_length {R : Type} [CommRing R] (net : Network R) (l : ℕ) :
    ((net.layers.getD l default).getDerivatives).length = net.sizeAt l := by
  simp [Layer.getDerivatives, Network.sizeAt, Layer.getSize]

/-- C1: after feedForward has run, a target vector of the output layer
length has been set and the error list is clear, backPropagate succeeds
and produces an error list whose element 0 is the elementwise product
of the cost gradient (activation minus target, per output neuron) with
the output layer derivative vector, and for every hidden layer l from
the second-to-last layer down to layer 1 (never layer 0) the error
vector stored at reverse index numLayers-1-l has length equal to the
size of layer l and equals (transpose of weight matrix l applied to the
error of layer l+1) Hadamard the derivative vector of layer l. -/
theorem C1_backPropagate_errors {R : Type} [CommRing R] (net : Network R)
    (hwf : net.WF) (hn : 2 ≤ net.layers.length) (he : net.errors = [])
    (htar : net.targetOutput.length = net.sizeAt (net.layers.length - 1)) :
    ∃ net2, net.backPropagate = .ok net2 ∧
      net2.errors.length = net.layers.length - 1 ∧
      net2.errors.getD 0 [] = linalg.hadamardProduct
        (List.zipWith (fun a b => a - b)
          ((net.layers.getD (net.layers.length - 1) default).getActivations)
          net.targetOutput)
        ((net.layers.getD (net.layers.length - 1) default).getDerivatives) ∧
      (∀ l, 1 ≤ l → l ≤ net.layers.length - 2 →
        (net2.errors.getD (net.layers.length - 1 - l) []).length = net.sizeAt l ∧
        net2.errors.getD (net.layers.length - 1 - l) [] =
          linalg.hadamardProduct
            (linalg.matVec ((net.weightMatrices.getD l default).transpose)
              (net2.errors.getD (net.layers.length - 1 - (l+1)) []))
            ((net.layers.getD l default).getDerivatives)) := by
  obtain ⟨hnum, hwmlen, hdims⟩ := hwf
  have htar2 : net.sizeAt (net.layers.length - 1) ≤ net.targetOutput.length :=
    le_of_eq htar.symm
  have hbp := backPropagate_ok net hnum hwmlen hn htar2
  refine ⟨_, hbp, ?_, ?_, ?_⟩
  all_goals
    have hE : ({ net with errors := net.errors ++ ((outputError net) ::
        bpList net (net.layers.length - 2) (outputError net)) } : Network R).errors =
        (outputError net) :: bpList net (net.layers.length - 2) (outputError net) := by
      have h1 : ({ net with errors := net.errors ++ ((outputError net) ::
          bpList net (net.layers.length - 2) (outputError net)) } : Network R).errors =
          net.errors ++ ((outputError net) ::
          bpList net (net.layers.length - 2) (outputError net)) := rfl
      rw [h1, he, List.nil_append]
  · rw [hE]
    simp only [List.length_cons, bpList_length]
    omega
  · rw [hE]
    rfl
  · intro l h1 h2
    rw [hE]
    have hlwm : l < net.weightMatrices.length := by omega
    have hp : net.layers.length - 1 - l = (net.layers.length - 2 - l) + 1 := by omega
    have hgd : ((outputError net) ::
        bpList net (net.layers.length - 2) (outputError net)).getD
          (net.layers.length - 1 - l) [] =
        (bpList net (net.layers.length - 2) (outputError net)).getD
          (net.layers.length - 2 - l) [] := by
      rw [hp]
      rfl
    have ht : net.layers.length - 2 - l < net.layers.length - 2 := by omega
    have hmain := bpList_get net (net.layers.length - 2) (outputError net)
      (net.layers.length - 2 - l) ht
    have hidx : net.layers.length - 2 - (net.layers.length - 2 - l) = l := by omega
    rw [hidx] at hmain
    have hinner : ((outputError net) ::
        bpList net (net.layers.length - 2) (outputError net)).getD
          (net.layers.length - 1 - (l+1)) [] =
        (if net.layers.length - 2 - l = 0 then outputError net
         else (bpList net (net.layers.length - 2) (outputError net)).getD
           (net.layers.length - 2 - l - 1) []) := by
      by_cases h0 : net.layers.length - 2 - l = 0
      · rw [if_pos h0]
        have hz : net.layers.length - 1 - (l+1) = 0 := by omega
        rw [hz]
        rfl
      · rw [if_neg h0]
        have hz : net.layers.length - 1 - (l+1) = (net.layers.length - 2 - l - 1) + 1 := by
          omega
        rw [hz]
        rfl
    have heq : ((outputError net) ::
        bpList net (net.layers.length - 2) (outputError net)).getD
          (net.layers.length - 1 - l) [] =
        linalg.hadamardProduct
          (linalg.matVec ((net.weightMatrices.getD l default).transpose)
            (((outputError net) ::
              bpList net (net.layers.length - 2) (outputError net)).getD
                (net.layers.length - 1 - (l+1)) []))
          ((net.layers.getD l default).getDerivatives) := by
      rw [hgd, hmain, hinner]
    refine ⟨?_, heq⟩
    rw [heq, length_hadamardProduct, length_matVec, entries_length_transpose,
      (hdims l hlwm).2.2, getDerivatives_length, Nat.min_self]

/-- The identity squashing pair over the integers, used for concrete
witnesses. -/
def S0 : SquashFn ℤ := ⟨fun x => x, fun _ => 1⟩

/-- A concrete random supply for witnesses: draw n returns n. -/
def sup0 : ℕ → ℤ := fun n => (n : ℤ)

/-- A concrete three-layer network with sizes 1, 1, 1. -/
def exNet3 : Network ℤ :=
  { layerSizes := [1, 1, 1]
    numLayers := 3
    layers := [⟨[⟨2, 2, 1, 0⟩]⟩, ⟨[⟨3, 3, 1, 4⟩]⟩, ⟨[⟨6, 6, 1, 5⟩]⟩]
    weightMatrices := [⟨1, 1, [[3]]⟩, ⟨1, 1, [[7]]⟩]
    input := []
    targetOutput := [0]
    errors := [] }

theorem C1_backPropagate_errors_witness :
    exNet3.WF ∧ 2 ≤ exNet3.layers.length ∧ exNet3.errors = [] ∧
    exNet3.targetOutput.length = exNet3.sizeAt (exNet3.layers.length - 1) ∧
    (∃ net2, exNet3.backPropagate = .ok net2 ∧
      net2.errors.length = exNet3.layers.length - 1 ∧
      net2.errors.getD 0 [] = linalg.hadamardProduct
        (List.zipWith (fun a b => a - b)
          ((exNet3.layers.getD (exNet3.layers.length - 1) default).getActivations)
          exNet3.targetOutput)
        ((exNet3.layers.getD (exNet3.layers.length - 1) default).getDerivatives) ∧
      (∀ l, 1 ≤ l → l ≤ exNet3.layers.length - 2 →
        (net2.errors.getD (exNet3.layers.length - 1 - l) []).length = exNet3.sizeAt l ∧
        net2.errors.getD (exNet3.layers.length - 1 - l) [] =
          linalg.hadamardProduct
            (linalg.matVec ((exNet3.weightMatrices.getD l default).transpose)
              (net2.errors.getD (exNet3.layers.length - 1 - (l+1)) []))
            ((exNet3.layers.getD l default).getDerivatives))) :=
  ⟨by decide, by decide, by decide, by decide,
    C1_backPropagate_errors exNet3 (by decide) (by decide) (by decide) (by decide)⟩

/-- C2: for every weight-matrix index l, entry (j, i) of weight matrix
l after update equals the old weight minus learning rate times the
activation of neuron i in layer l times the error of neuron j in layer
l+1, and the bias of every neuron j in layer l+1 becomes the old bias
minus learning rate times that error, where the error vector of layer
l+1 is the reverse-indexed error-list entry numWeightMatrices-1-l
(assuming, as after a clean backpropagation pass, one error vector per
weight matrix). -/
theorem C2_update_delta_rule {R : Type} [CommRing R] (lr : R) (net : Network R)
    (hwf : net.WF) (herr : net.errors.length = net.weightMatrices.length) :
    ∀ l, l < net.weightMatrices.length →
      (∀ j, j < net.sizeAt (l+1) → ∀ i, i < net.sizeAt l →
        ((Network.update lr net).weightMatrices.getD l default).get j i =
          (net.weightMatrices.getD l default).get j i -
            lr * ((net.layers.getD l default).getActivations.getD i 0) *
              ((net.errors.getD (net.weightMatrices.length - 1 - l) []).getD j 0)) ∧
      (∀ j, j < net.sizeAt (l+1) →
        ((Network.update lr net).layers.getD (l+1) default).getBiasAt j =
          (net.layers.getD (l+1) default).getBiasAt j -
            lr * ((net.errors.getD (net.weightMatrices.length - 1 - l) []).getD j 0)) := by
  intro l hl
  have h := update_wm_bias_formula lr net hwf l hl
  rw [herr] at h
  exact h

/-- A concrete two-layer network with sizes 2, 1 and one stored error
vector, as left by a backpropagation pass. -/
def exNetC2 : Network ℤ :=
  { layerSizes := [2, 1]
    numLayers := 2
    layers := [⟨[⟨1, 1, 1, 0⟩, ⟨2, 2, 1, 0⟩]⟩, ⟨[⟨0, 0, 1, 3⟩]⟩]
    weightMatrices := [⟨1, 2, [[4, 5]]⟩]
    input := []
    targetOutput := [0]
    errors := [[6]] }

theorem C2_update_delta_rule_witness :
    exNetC2.WF ∧ exNetC2.errors.length = exNetC2.weightMatrices.length ∧
    (∀ l, l < exNetC2.weightMatrices.length →
      (∀ j, j < exNetC2.sizeAt (l+1) → ∀ i, i < exNetC2.sizeAt l →
        ((Network.update (2 : ℤ) exNetC2).weightMatrices.getD l default).get j i =
          (exNetC2.weightMatrices.getD l default).get j i -
            2 * ((exNetC2.layers.getD l default).getActivations.getD i 0) *
              ((exNetC2.errors.getD (exNetC2.weightMatrices.length - 1 - l) []).getD j 0)) ∧
      (∀ j, j < exNetC2.sizeAt (l+1) →
        ((Network.update (2 : ℤ) exNetC2).layers.getD (l+1) default).getBiasAt j =
          (exNetC2.layers.getD (l+1) default).getBiasAt j -
            2 * ((exNetC2.errors.getD (exNetC2.weightMatrices.length - 1 - l) []).getD j 0))) :=
  ⟨by decide, by decide, C2_update_delta_rule 2 exNetC2 (by decide) (by decide)⟩

/-- A two-layer network whose output neuron has bias 0. -/
def exNetBias0 : Network ℤ :=
  { layerSizes := [1, 1]
    numLayers := 2
    layers := [⟨[⟨2, 2, 1, 0⟩]⟩, ⟨[⟨0, 0, 1, 0⟩]⟩]
    weightMatrices := [⟨1, 1, [[3]]⟩]
    input := []
    targetOutput := [0]
    errors := [] }

/-- The same network with the output neuron bias changed to 5. -/
def exNetBias5 : Network ℤ :=
  { layerSizes := [1, 1]
    numLayers := 2
    layers := [⟨[⟨2, 2, 1, 0⟩]⟩, ⟨[⟨0, 0, 1, 5⟩]⟩]
    weightMatrices := [⟨1, 1, [[3]]⟩]
    input := []
    targetOutput := [0]
    errors := [] }

/-- The forward-pass result for the bias-0 network. -/
def exNetBias0Res : Network ℤ :=
  { exNetBias0 with layers := [⟨[⟨2, 2, 1, 0⟩]⟩, ⟨[⟨6, 6, 1, 0⟩]⟩] }

/-- The forward-pass result for the bias-5 network. -/
def exNetBias5Res : Network ℤ :=
  { exNetBias5 with layers := [⟨[⟨2, 2, 1, 0⟩]⟩, ⟨[⟨6, 6, 1, 5⟩]⟩] }

/-- C3 fails on the code: two networks identical except for one
non-input bias (0 versus 5 on the output neuron) produce identical
activations everywhere under feedForward, because neither the forward
pass nor the activation step adds the stored bias to the pre-activation
sum.  The claim says the activations of the neuron carrying the changed
bias must differ for some such pair; here they are equal for the pair,
and the computation is bias-independent. -/
theorem C3_feedForward_ignores_bias :
    exNetBias0.weightMatrices = exNetBias5.weightMatrices ∧
    exNetBias0.layers.getD 0 default = exNetBias5.layers.getD 0 default ∧
    (exNetBias0.layers.getD 1 default).getInputs =
      (exNetBias5.layers.getD 1 default).getInputs ∧
    (exNetBias0.layers.getD 1 default).getActivations =
      (exNetBias5.layers.getD 1 default).getActivations ∧
    (exNetBias0.layers.getD 1 default).getDerivatives =
      (exNetBias5.layers.getD 1 default).getDerivatives ∧
    (exNetBias0.layers.getD 1 default).getBiasAt 0 ≠
      (exNetBias5.layers.getD 1 default).getBiasAt 0 ∧
    Network.feedForward S0 exNetBias0 = .ok exNetBias0Res ∧
    Network.feedForward S0 exNetBias5 = .ok exNetBias5Res ∧
    (exNetBias0Res.layers.getD 1 default).getActivations =
      (exNetBias5Res.layers.getD 1 default).getActivations ∧
    (exNetBias0Res.layers.getD 1 default).getActivations = [6] := by
  decide

theorem constructFold_numLayers {R : Type} [CommRing R] (S : SquashFn R) (sup : ℕ → R)
    (sizes : List ℕ) :
    ∀ (k : ℕ),
      ((List.range k).foldl (constructStep sup sizes) (constructInit S sizes, 0)).1.numLayers =
        sizes.length := by
  intro k
  induction k with
  | zero => rfl
  | succ n ih =>
    have hsplit : (List.range (n+1)).foldl (constructStep sup sizes) (constructInit S sizes, 0) =
        constructStep sup sizes
          ((List.range n).foldl (constructStep sup sizes) (constructInit S sizes, 0)) n := by
      rw [List.range_succ, List.foldl_append]
      rfl
    rw [hsplit, constructStep_eq]
    exact ih

/-- C4: for layer sizes of length at least 2 with every size positive,
the constructor builds one layer per size and one weight matrix per
adjacent pair, weight matrix l has shape size(l+1) by size(l), every
neuron of every non-input layer gets its bias from the random supply,
and the input-layer biases keep their untouched default 0. -/
theorem C4_construct_shapes_and_biases {R : Type} [CommRing R] (S : SquashFn R)
    (sup : ℕ → R) (sizes : List ℕ) (h2 : 2 ≤ sizes.length)
    (hpos : ∀ s ∈ sizes, 1 ≤ s) :
    (Network.construct S sup sizes).numLayers = sizes.length ∧
    (Network.construct S sup sizes).layers.length = sizes.length ∧
    (Network.construct S sup sizes).weightMatrices.length = sizes.length - 1 ∧
    (∀ l, l < sizes.length - 1 →
      ((Network.construct S sup sizes).weightMatrices.getD l default).numRows =
        sizes.getD (l+1) 0 ∧
      ((Network.construct S sup sizes).weightMatrices.getD l default).numCols =
        sizes.getD l 0) ∧
    (∀ j, ((Network.construct S sup sizes).layers.getD 0 default).getBiasAt j = 0) ∧
    (∀ l, l < sizes.length - 1 → ∀ j, j < sizes.getD (l+1) 0 →
      ((Network.construct S sup sizes).layers.getD (l+1) default).getBiasAt j =
        sup (consumed sizes l + sizes.getD (l+1) 0 * sizes.getD l 0 + j)) := by
  have hk : (sizes.length - 1) + 1 ≤ sizes.length := by omega
  obtain ⟨i1, i2, i3, i4, i5, i6⟩ := constructFold_spec S sup sizes (sizes.length - 1) hk
  rw [construct_eq]
  refine ⟨constructFold_numLayers S sup sizes (sizes.length - 1), i2, i3, ?_, ?_, ?_⟩
  · intro l hl
    rw [i4 l hl]
    exact ⟨rfl, rfl⟩
  · intro j
    rw [i5 0 (Or.inl rfl)]
    exact getBiasAt_ofSize S _ j
  · intro l hl j hj
    have hm := i6 (l+1) (by omega) (by omega)
    rw [hm]
    have hsz : sizes.getD (l+1) 0 ≤ (Layer.ofSize S (sizes.getD (l+1) 0)).getSize :=
      le_of_eq (getSize_ofSize S _).symm
    rw [constBiasFold_getBiasAt _ _ _ hsz j, if_pos hj]
    simp only [Nat.add_sub_cancel]

theorem C4_construct_shapes_and_biases_witness :
    2 ≤ ([2, 1] : List ℕ).length ∧ (∀ s ∈ ([2, 1] : List ℕ), 1 ≤ s) ∧
    ((Network.construct S0 sup0 [2, 1]).numLayers = ([2, 1] : List ℕ).length ∧
    (Network.construct S0 sup0 [2, 1]).layers.length = ([2, 1] : List ℕ).length ∧
    (Network.construct S0 sup0 [2, 1]).weightMatrices.length = ([2, 1] : List ℕ).length - 1 ∧
    (∀ l, l < ([2, 1] : List ℕ).length - 1 →
      ((Network.construct S0 sup0 [2, 1]).weightMatrices.getD l default).numRows =
        ([2, 1] : List ℕ).getD (l+1) 0 ∧
      ((Network.construct S0 sup0 [2, 1]).weightMatrices.getD l default).numCols =
        ([2, 1] : List ℕ).getD l 0) ∧
    (∀ j, ((Network.construct S0 sup0 [2, 1]).layers.getD 0 default).getBiasAt j = 0) ∧
    (∀ l, l < ([2, 1] : List ℕ).length - 1 → ∀ j, j < ([2, 1] : List ℕ).getD (l+1) 0 →
      ((Network.construct S0 sup0 [2, 1]).layers.getD (l+1) default).getBiasAt j =
        sup0 (consumed [2, 1] l + ([2, 1] : List ℕ).getD (l+1) 0 * ([2, 1] : List ℕ).getD l 0 + j))) :=
  ⟨by decide, by decide,
    C4_construct_shapes_and_biases S0 sup0 [2, 1] (by decide) (by decide)⟩

/-- C9: update changes only weight-matrix entries and non-input-layer
biases; the error list, the stored input and target, every neuron input,
activation and derivative in every layer, and the whole input layer
(its biases included) are identical before and after. -/
theorem C9_update_frame {R : Type} [CommRing R] (lr : R) (net : Network R) :
    (Network.update lr net).errors = net.errors ∧
    (Network.update lr net).input = net.input ∧
    (Network.update lr net).targetOutput = net.targetOutput ∧
    (Network.update lr net).layers.length = net.layers.length ∧
    (∀ m, ((Network.update lr net).layers.getD m default).getInputs =
        (net.layers.getD m default).getInputs ∧
      ((Network.update lr net).layers.getD m default).getActivations =
        (net.layers.getD m default).getActivations ∧
      ((Network.update lr net).layers.getD m default).getDerivatives =
        (net.layers.getD m default).getDerivatives) ∧
    (Network.update lr net).layers.getD 0 default = net.layers.getD 0 default := by
  unfold Network.update
  obtain ⟨f1, f2, f3, _, _, f6, _⟩ :=
    updateFold_fields lr (List.range net.weightMatrices.length) net
  refine ⟨f1, f2, f3, f6, ?_, ?_⟩
  · intro m
    obtain ⟨_, d2, d3, d4⟩ :=
      updateFold_layer_data lr (List.range net.weightMatrices.length) net m
    exact ⟨d2, d3, d4⟩
  · refine updateFold_layers_untouched lr _ net 0 ?_
    intro i _
    omega

theorem bpList_errors_irrel {R : Type} [CommRing R] (net : Network R)
    (E : List (List R)) :
    ∀ (i : ℕ) (e : List R),
      bpList { net with errors := E } i e = bpList net i e := by
  intro i
  induction i with
  | zero => intro e; rfl
  | succ n ih =>
    intro e
    simp only [bpList]
    rw [ih]

/-- C10: backPropagate never removes or clears stored error vectors; it
appends exactly numLayers-1 vectors, the same vectors a run from a
cleared list would produce, after whatever the list already holds.  So
element 0 is the output-layer error, and the reverse indexing that
update relies on is valid, only when the list was empty beforehand,
which train ensures by clearing and backPropagate itself does not. -/
theorem C10_backPropagate_appends {R : Type} [CommRing R] (net : Network R)
    (hwf : net.WF) (hn : 2 ≤ net.layers.length)
    (htar : net.targetOutput.length = net.sizeAt (net.layers.length - 1)) :
    ∃ net2 net0, net.backPropagate = .ok net2 ∧
      Network.backPropagate { net with errors := [] } = .ok net0 ∧
      net2.errors = net.errors ++ net0.errors ∧
      net0.errors.length = net.layers.length - 1 := by
  obtain ⟨hnum, hwmlen, _⟩ := hwf
  have htar2 : net.sizeAt (net.layers.length - 1) ≤ net.targetOutput.length :=
    le_of_eq htar.symm
  have h1 := backPropagate_ok net hnum hwmlen hn htar2
  have h2 := backPropagate_ok ({ net with errors := [] } : Network R) hnum hwmlen hn htar2
  refine ⟨_, _, h1, h2, ?_, ?_⟩
  · have hb : bpList ({ net with errors := ([] : List (List R)) } : Network R)
        (net.layers.length - 2) (outputError net) =
        bpList net (net.layers.length - 2) (outputError net) :=
      bpList_errors_irrel net [] _ _
    show net.errors ++ ((outputError net) ::
        bpList net (net.layers.length - 2) (outputError net)) =
      net.errors ++ ([] ++ ((outputError ({ net with errors := [] } : Network R)) ::
        bpList ({ net with errors := [] } : Network R)
          ((({ net with errors := [] } : Network R)).layers.length - 2)
          (outputError ({ net with errors := [] } : Network R))))
    rw [List.nil_append]
    have ho : outputError ({ net with errors := [] } : Network R) = outputError net := rfl
    rw [ho]
    rw [show (({ net with errors := [] } : Network R)).layers.length = net.layers.length
      from rfl]
    rw [hb]
  · show ([] ++ ((outputError ({ net with errors := [] } : Network R)) ::
        bpList ({ net with errors := [] } : Network R)
          ((({ net with errors := [] } : Network R)).layers.length - 2)
          (outputError ({ net with errors := [] } : Network R)))).length =
      net.layers.length - 1
    rw [List.nil_append, List.length_cons, bpList_length]
    show net.layers.length - 2 + 1 = net.layers.length - 1
    omega

/-- The three-layer example network carrying a stale error vector from
an earlier pass. -/
def exNet3E : Network ℤ := { exNet3 with errors := [[9]] }

theorem C10_backPropagate_appends_witness :
    exNet3E.WF ∧ 2 ≤ exNet3E.layers.length ∧
    exNet3E.targetOutput.length = exNet3E.sizeAt (exNet3E.layers.length - 1) ∧
    (∃ net2 net0, exNet3E.backPropagate = .ok net2 ∧
      Network.backPropagate { exNet3E with errors := [] } = .ok net0 ∧
      net2.errors = exNet3E.errors ++ net0.errors ∧
      net0.errors.length = exNet3E.layers.length - 1) :=
  ⟨by decide, by decide, by decide,
    C10_backPropagate_appends exNet3E (by decide) (by decide) (by decide)⟩

/-- C8: in a two-layer network backPropagate performs no hidden-layer
recurrence iteration and produces exactly one error vector, the
output-layer error, and update then applies the delta rule to the
single weight matrix and the output-layer biases using that vector. -/
theorem C8_two_layer_step {R : Type} [CommRing R] (lr : R) (net : Network R)
    (hwf : net.WF) (h2 : net.layers.length = 2) (he : net.errors = [])
    (htar : net.targetOutput.length = net.sizeAt 1) :
    ∃ net2, net.backPropagate = .ok net2 ∧
      net2.errors = [linalg.hadamardProduct
        (List.zipWith (fun a b => a - b)
          ((net.layers.getD 1 default).getActivations) net.targetOutput)
        ((net.layers.getD 1 default).getDerivatives)] ∧
      (∀ j, j < net.sizeAt 1 → ∀ i, i < net.sizeAt 0 →
        ((Network.update lr net2).weightMatrices.getD 0 default).get j i =
          (net.weightMatrices.getD 0 default).get j i -
            lr * ((net.layers.getD 0 default).getActivations.getD i 0) *
              ((net2.errors.getD 0 []).getD j 0)) ∧
      (∀ j, j < net.sizeAt 1 →
        ((Network.update lr net2).layers.getD 1 default).getBiasAt j =
          (net.layers.getD 1 default).getBiasAt j -
            lr * ((net2.errors.getD 0 []).getD j 0)) := by
  obtain ⟨hnum, hwmlen, hdims⟩ := hwf
  have hn : 2 ≤ net.layers.length := le_of_eq h2.symm
  have htar2 : net.sizeAt (net.layers.length - 1) ≤ net.targetOutput.length := by
    rw [h2]
    exact le_of_eq htar.symm
  have hbp := backPropagate_ok net hnum hwmlen hn htar2
  have hElist : net.errors ++ ((outputError net) ::
      bpList net (net.layers.length - 2) (outputError net)) = [outputError net] := by
    rw [he, h2]
    rfl
  rw [hElist] at hbp
  have hE : outputError net = linalg.hadamardProduct
      (List.zipWith (fun a b => a - b)
        ((net.layers.getD 1 default).getActivations) net.targetOutput)
      ((net.layers.getD 1 default).getDerivatives) := by
    unfold outputError
    rw [h2]
  rw [hE] at hbp
  refine ⟨_, hbp, rfl, ?_, ?_⟩
  all_goals
    have h0 : 0 < ({ net with errors := [linalg.hadamardProduct
        (List.zipWith (fun a b => a - b)
          ((net.layers.getD 1 default).getActivations) net.targetOutput)
        ((net.layers.getD 1 default).getDerivatives)] } : Network R).weightMatrices.length := by
      show 0 < net.weightMatrices.length
      omega
  · exact (update_wm_bias_formula lr ({ net with errors := [linalg.hadamardProduct
        (List.zipWith (fun a b => a - b)
          ((net.layers.getD 1 default).getActivations) net.targetOutput)
        ((net.layers.getD 1 default).getDerivatives)] } : Network R)
      ⟨hnum, hwmlen, hdims⟩ 0 h0).1
  · exact (update_wm_bias_formula lr ({ net with errors := [linalg.hadamardProduct
        (List.zipWith (fun a b => a - b)
          ((net.layers.getD 1 default).getActivations) net.targetOutput)
        ((net.layers.getD 1 default).getDerivatives)] } : Network R)
      ⟨hnum, hwmlen, hdims⟩ 0 h0).2

/-- A concrete two-layer network with sizes 2, 1 and a clear error
list. -/
def exNet2 : Network ℤ :=
  { layerSizes := [2, 1]
    numLayers := 2
    layers := [⟨[⟨1, 1, 1, 0⟩, ⟨2, 2, 1, 0⟩]⟩, ⟨[⟨7, 7, 1, 3⟩]⟩]
    weightMatrices := [⟨1, 2, [[4, 5]]⟩]
    input := []
    targetOutput := [1]
    errors := [] }

theorem C8_two_layer_step_witness :
    exNet2.WF ∧ exNet2.layers.length = 2 ∧ exNet2.errors = [] ∧
    exNet2.targetOutput.length = exNet2.sizeAt 1 ∧
    (∃ net2, exNet2.backPropagate = .ok net2 ∧
      net2.errors = [linalg.hadamardProduct
        (List.zipWith (fun a b => a - b)
          ((exNet2.layers.getD 1 default).getActivations) exNet2.targetOutput)
        ((exNet2.layers.getD 1 default).getDerivatives)] ∧
      (∀ j, j < exNet2.sizeAt 1 → ∀ i, i < exNet2.sizeAt 0 →
        ((Network.update (1 : ℤ) net2).weightMatrices.getD 0 default).get j i =
          (exNet2.weightMatrices.getD 0 default).get j i -
            1 * ((exNet2.layers.getD 0 default).getActivations.getD i 0) *
              ((net2.errors.getD 0 []).getD j 0)) ∧
      (∀ j, j < exNet2.sizeAt 1 →
        ((Network.update (1 : ℤ) net2).layers.getD 1 default).getBiasAt j =
          (exNet2.layers.getD 1 default).getBiasAt j -
            1 * ((net2.errors.getD 0 []).getD j 0))) :=
  ⟨by decide, by decide, by decide, by decide,
    C8_two_layer_step 1 exNet2 (by decide) (by decide) (by decide) (by decide)⟩

/-- C5: train processes the sample list strictly in order, and for each
sample performs exactly one gradient step in the order set input, set
target, feed forward, clear the error list, backpropagate, update; when
train returns successfully on a list ending with sample s, the final
error list is exactly the error list that the backpropagation pass for
s produced from its cleared state. -/
theorem C5_train_order_and_last_errors {R : Type} [CommRing R] (S : SquashFn R)
    (lr : R) :
    (∀ (net : Network R) (s : List (List R)) (rest : List (List (List R))),
      Network.train S lr net (s :: rest) =
        (if 2 ≤ s.length then
          match Network.setInput S net (s.getD 0 []) with
          | .error e => .error e
          | .ok n1 =>
            match Network.feedForward S (Network.setTarget n1 (s.getD 1 [])) with
            | .error e => .error e
            | .ok n3 =>
              match Network.backPropagate { n3 with errors := [] } with
              | .error e => .error e
              | .ok n5 => Network.train S lr (Network.update lr n5) rest
        else .error "malformed_sample")) ∧
    (∀ (ss : List (List (List R))) (s : List (List R)) (net net2 : Network R),
      Network.train S lr net (ss ++ [s]) = .ok net2 →
      ∃ m n1 n3 n5, Network.train S lr net ss = .ok m ∧
        Network.setInput S m (s.getD 0 []) = .ok n1 ∧
        Network.feedForward S (Network.setTarget n1 (s.getD 1 [])) = .ok n3 ∧
        Network.backPropagate { n3 with errors := [] } = .ok n5 ∧
        net2 = Network.update lr n5 ∧ net2.errors = n5.errors) := by
  constructor
  · intro net s rest
    rfl
  · intro ss s net net2 h
    exact train_snoc S lr s ss net net2 h

/-- A concrete one-input one-output network to train on one sample. -/
def exNetT : Network ℤ :=
  { layerSizes := [1, 1]
    numLayers := 2
    layers := [⟨[⟨0, 0, 1, 0⟩]⟩, ⟨[⟨0, 0, 1, 1⟩]⟩]
    weightMatrices := [⟨1, 1, [[2]]⟩]
    input := []
    targetOutput := []
    errors := [] }

/-- The network state after training exNetT on the sample with input 3
and target 4 at learning rate 1. -/
def exNetTRes : Network ℤ :=
  { layerSizes := [1, 1]
    numLayers := 2
    layers := [⟨[⟨3, 3, 1, 0⟩]⟩, ⟨[⟨6, 6, 1, -1⟩]⟩]
    weightMatrices := [⟨1, 1, [[-4]]⟩]
    input := [3]
    targetOutput := [4]
    errors := [[2]] }

theorem C5_train_order_and_last_errors_witness :
    ∃ m n1 n3 n5, Network.train S0 1 exNetT [] = .ok m ∧
      Network.setInput S0 m (([[3], [4]] : List (List ℤ)).getD 0 []) = .ok n1 ∧
      Network.feedForward S0 (Network.setTarget n1 (([[3], [4]] : List (List ℤ)).getD 1 [])) = .ok n3 ∧
      Network.backPropagate { n3 with errors := [] } = .ok n5 ∧
      exNetTRes = Network.update 1 n5 ∧ exNetTRes.errors = n5.errors :=
  (C5_train_order_and_last_errors S0 1).2 [] [[3], [4]] exNetT exNetTRes (by decide)

/-- The network exNet2 after the short input vector 5 has been set:
only the first input-layer neuron was written, and the stored input
vector changed. -/
def exNetC6Res : Network ℤ :=
  { exNet2 with
      input := [5]
      layers := [⟨[⟨5, 5, 1, 0⟩, ⟨2, 2, 1, 0⟩]⟩, ⟨[⟨7, 7, 1, 3⟩]⟩] }

/-- C6 fails on the code: setInput with a vector shorter than layer 0
does not fail with a dimension-mismatch error; it succeeds, overwrites
the stored input and the first input-layer neuron, and leaves the
network in a changed state. -/
theorem C6_setInput_short_accepted :
    ([5] : List ℤ).length ≠ (exNet2.layers.getD 0 default).getSize ∧
    Network.setInput S0 exNet2 [5] = .ok exNetC6Res ∧
    exNetC6Res ≠ exNet2 := by
  decide

/-- C7 fails on the code: the constructor performs no validation at
all.  An empty size list yields a zero-layer network, a single size
yields a one-layer network with no weight matrices, and a zero-size
layer is built as an empty layer; none of these fail fast. -/
theorem C7_construct_no_validation :
    Network.construct S0 sup0 ([] : List ℕ) =
      ({ layerSizes := [], numLayers := 0, layers := [], weightMatrices := [],
         input := [], targetOutput := [], errors := [] } : Network ℤ) ∧
    (Network.construct S0 sup0 [3]).numLayers = 1 ∧
    (Network.construct S0 sup0 [3]).weightMatrices = [] ∧
    (Network.construct S0 sup0 [2, 0]).layers.length = 2 ∧
    ((Network.construct S0 sup0 [2, 0]).layers.getD 1 default).getSize = 0 := by
  decide
